import Mathlib

/-!
# Mrrng64: the byte mixer `Add`, the entropy samplers, the `Init`/`Next` protocol and
`CalculateEntropy`

Shallow embedding of `Mrrng64/Mrrng64.cpp`.

* A `DWORD64` is a natural number below `2^64`; a `DWORD` one below `2^32`.
  Every store into a 32-bit half of the `SEED` union truncates modulo `2^32`.
* The `SEED` union overlays `u32[2]` on `u64`; on the (little-endian) target
  `u32[0]` is the low half and `u32[1]` the high half of `u64`.
* A buffer (`PVOID buffer`, read through `UCHAR*`) is a list of bytes.
* The Win32 queries are an oracle over an abstract world: each query consumes
  the world and returns its outcome together with the next world.
* A stream (`FILE*`) is the list of its bytes. The counters of `CalculateEntropy` are
  `DWORD`s and wrap modulo `2^32`; its total is a `size_t`, whose width is a parameter.
* The operations on `double` are a parameter of `CalculateEntropy`; values are stated over
  the exact arithmetic of the reals.
-/

namespace Mrrng64

/-! ## The `SEED` union -/

/-- Read `seed.u32[k]` out of the 64-bit word `seed` (index 0: low half, else high half). -/
def u32get (seed k : Nat) : Nat :=
  if k = 0 then seed % 2 ^ 32 else seed / 2 ^ 32 % 2 ^ 32

/-- Store `v` (truncated to 32 bits) into `seed.u32[k]`, the other half being kept. -/
def u32set (seed k v : Nat) : Nat :=
  if k = 0 then seed / 2 ^ 32 % 2 ^ 32 * 2 ^ 32 + v % 2 ^ 32
  else v % 2 ^ 32 * 2 ^ 32 + seed % 2 ^ 32

/-! ## `Add` -/

/-- Body of the loop of `Add` at offset `i`: the three statements guarded by
`if (((UCHAR*)buffer)[i])`. -/
def AddBody (buffer : List Nat) (i : Nat) (seed : Nat) : Nat :=
  if buffer.getD i 0 ≠ 0 then
    -- seed.u32[i % 2] += 0x9e3779b9;
    let seed := u32set seed (i % 2) ((u32get seed (i % 2) + 0x9e3779b9) % 2 ^ 32)
    -- seed.u32[i % 2] ^= ((UCHAR*)buffer)[i];
    let seed := u32set seed (i % 2) (u32get seed (i % 2) ^^^ buffer.getD i 0)
    -- seed.u32[i % 2] = (seed.u32[i % 2] * 0xFFFFFFED + 0xFFFFFFC3) & 0xFFFFFFFF;
    let seed := u32set seed (i % 2)
      (((u32get seed (i % 2) * 0xFFFFFFED) % 2 ^ 32 + 0xFFFFFFC3) % 2 ^ 32 &&& 0xFFFFFFFF)
    seed
  else seed

/-- The function `Mrrng64::Add(DWORD64* value, PVOID buffer, DWORD length)`: the result is the
word stored back into `*value`. The loop `for (DWORD i = 0; i < length; i++)` visits
`0, 1, ..., length - 1` in this order. -/
def Add (value : Nat) (buffer : List Nat) (length : Nat) : Nat :=
  let seed := value
  (List.range length).foldl (fun seed i => AddBody buffer i seed) seed

/-! ## Windows data and queries

The structures below are the Windows SDK ones the source fills in, with the fields the source
reads. The raw bytes handed to `Add` are those of the little-endian target. -/

/-- Raw bytes of an unsigned integer stored on `n` bytes, least significant byte first. -/
def bytesLE : Nat → Nat → List Nat
  | 0, _ => []
  | n + 1, v => v % 256 :: bytesLE n (v / 256)

/-- The structure `FILETIME`: two `DWORD`s, 8 bytes. -/
structure FILETIME where
  dwLowDateTime : Nat
  dwHighDateTime : Nat

/-- Raw bytes of a `FILETIME`. -/
def FILETIME.bytes (t : FILETIME) : List Nat :=
  bytesLE 4 t.dwLowDateTime ++ bytesLE 4 t.dwHighDateTime

/-- The structure `IO_COUNTERS`: six `ULONGLONG`s. -/
structure IO_COUNTERS where
  ReadOperationCount : Nat
  WriteOperationCount : Nat
  OtherOperationCount : Nat
  ReadTransferCount : Nat
  WriteTransferCount : Nat
  OtherTransferCount : Nat

/-- The structure `PROCESS_MEMORY_COUNTERS`: `PageFaultCount` is a `DWORD`, the eight sizes
are `SIZE_T`s (the leading `cb` is not read by the source). -/
structure PROCESS_MEMORY_COUNTERS where
  PageFaultCount : Nat
  PeakWorkingSetSize : Nat
  WorkingSetSize : Nat
  QuotaPeakPagedPoolUsage : Nat
  QuotaPagedPoolUsage : Nat
  QuotaPeakNonPagedPoolUsage : Nat
  QuotaNonPagedPoolUsage : Nat
  PagefileUsage : Nat
  PeakPagefileUsage : Nat

/-- The structure `POINT`: two signed 32-bit `LONG`s, 8 bytes. -/
structure POINT where
  x : Int
  y : Int

/-- Raw bytes of a `POINT` (two's complement). -/
def POINT.bytes (p : POINT) : List Nat :=
  bytesLE 4 (p.x % 2 ^ 32).toNat ++ bytesLE 4 (p.y % 2 ^ 32).toNat

/-- The operating system as seen by the source: every query reads the world `W` and returns
its outcome with the next world. A `BOOL` query with an out-parameter returns `some` of the
data it filled in when it succeeds and `none` when it fails. `QueryPerformanceCounter`
returns its `BOOL` together with the content of the buffer after the call, since the source
reads the buffer whatever the `BOOL`. `sizeof_size_t` is `sizeof(size_t)` on the target. -/
structure Win32 (W : Type) where
  sizeof_size_t : Nat
  GetSystemTimeAsFileTime : W → FILETIME × W
  QueryPerformanceCounter : W → (Bool × Nat) × W
  GetProcessIoCounters : W → Option IO_COUNTERS × W
  GetProcessMemoryInfo : W → Option PROCESS_MEMORY_COUNTERS × W
  QueryProcessCycleTime : W → Option Nat × W
  QueryThreadCycleTime : W → Option Nat × W
  GetCursorPos : W → Option POINT × W

/-! ## The samplers -/

/-- The function `Mrrng64::AddTimeStamp`: the new `*value` and the next world. -/
def AddTimeStamp {W : Type} (os : Win32 W) (value : Nat) (w : W) : Nat × W :=
  let seed := value
  -- GetSystemTimeAsFileTime(&SystemTimeAsFileTime);
  let q := os.GetSystemTimeAsFileTime w
  -- Add(&seed.u64, &SystemTimeAsFileTime, sizeof(FILETIME));
  let seed := Add seed q.1.bytes 8
  -- QueryPerformanceCounter(&PerformanceCount);
  let r := os.QueryPerformanceCounter q.2
  -- Add(&seed.u64, &PerformanceCount, sizeof(LARGE_INTEGER));
  let seed := Add seed (bytesLE 8 r.1.2) 8
  (seed, r.2)

/-- The function `Mrrng64::AddIoCounters`. -/
def AddIoCounters {W : Type} (os : Win32 W) (value : Nat) (w : W) : Nat × W :=
  let seed := value
  match os.GetProcessIoCounters w with
  | (some IoCounters, w) =>
    let seed := if IoCounters.ReadOperationCount ≠ 0
      then Add seed (bytesLE 8 IoCounters.ReadOperationCount) 8 else seed
    let seed := if IoCounters.WriteOperationCount ≠ 0
      then Add seed (bytesLE 8 IoCounters.WriteOperationCount) 8 else seed
    let seed := if IoCounters.OtherOperationCount ≠ 0
      then Add seed (bytesLE 8 IoCounters.OtherOperationCount) 8 else seed
    let seed := if IoCounters.ReadTransferCount ≠ 0
      then Add seed (bytesLE 8 IoCounters.ReadTransferCount) 8 else seed
    let seed := if IoCounters.WriteTransferCount ≠ 0
      then Add seed (bytesLE 8 IoCounters.WriteTransferCount) 8 else seed
    let seed := if IoCounters.OtherTransferCount ≠ 0
      then Add seed (bytesLE 8 IoCounters.OtherTransferCount) 8 else seed
    (seed, w)
  | (none, w) => (seed, w)

/-- The function `Mrrng64::AddMemoryCounters`. -/
def AddMemoryCounters {W : Type} (os : Win32 W) (value : Nat) (w : W) : Nat × W :=
  let seed := value
  match os.GetProcessMemoryInfo w with
  | (some MemoryCounters, w) =>
    let seed :=
      if MemoryCounters.PageFaultCount ≠ 0 then
        Add seed (bytesLE 4 MemoryCounters.PageFaultCount) 4
      else if MemoryCounters.PeakWorkingSetSize ≠ 0 then
        Add seed (bytesLE os.sizeof_size_t MemoryCounters.PeakWorkingSetSize) os.sizeof_size_t
      else if MemoryCounters.WorkingSetSize ≠ 0 then
        Add seed (bytesLE os.sizeof_size_t MemoryCounters.WorkingSetSize) os.sizeof_size_t
      else if MemoryCounters.QuotaPeakPagedPoolUsage ≠ 0 then
        Add seed (bytesLE os.sizeof_size_t MemoryCounters.QuotaPeakPagedPoolUsage)
          os.sizeof_size_t
      else if MemoryCounters.QuotaPagedPoolUsage ≠ 0 then
        Add seed (bytesLE os.sizeof_size_t MemoryCounters.QuotaPagedPoolUsage) os.sizeof_size_t
      else if MemoryCounters.QuotaPeakNonPagedPoolUsage ≠ 0 then
        Add seed (bytesLE os.sizeof_size_t MemoryCounters.QuotaPeakNonPagedPoolUsage)
          os.sizeof_size_t
      else if MemoryCounters.QuotaNonPagedPoolUsage ≠ 0 then
        Add seed (bytesLE os.sizeof_size_t MemoryCounters.QuotaNonPagedPoolUsage)
          os.sizeof_size_t
      else if MemoryCounters.PagefileUsage ≠ 0 then
        Add seed (bytesLE os.sizeof_size_t MemoryCounters.PagefileUsage) os.sizeof_size_t
      else if MemoryCounters.PeakPagefileUsage ≠ 0 then
        Add seed (bytesLE os.sizeof_size_t MemoryCounters.PeakPagefileUsage) os.sizeof_size_t
      else seed
    (seed, w)
  | (none, w) => (seed, w)

/-- The function `Mrrng64::AddCycleTime`. The condition
`process && QueryProcessCycleTime(...)` is short-circuit: the process-level query is made
only when `process` is true; the `else if` then makes the thread-level query. -/
def AddCycleTime {W : Type} (os : Win32 W) (value : Nat) (process : Bool) (w : W) : Nat × W :=
  let seed := value
  let c := if process then os.QueryProcessCycleTime w else (none, w)
  match c with
  | (some cycles, w) => (Add seed (bytesLE 8 cycles) 8, w)
  | (none, w) =>
    match os.QueryThreadCycleTime w with
    | (some cycles, w) => (Add seed (bytesLE 8 cycles) 8, w)
    | (none, w) => (seed, w)

/-- The function `Mrrng64::AddCursorPosition`. -/
def AddCursorPosition {W : Type} (os : Win32 W) (value : Nat) (w : W) : Nat × W :=
  let seed := value
  match os.GetCursorPos w with
  | (some lpPoint, w) => (Add seed lpPoint.bytes 8, w)
  | (none, w) => (seed, w)

/-! ## `Init` and `Next` -/

/-- The function `Mrrng64::Init`: the three one-off samplers, then the loop
`for (int i = 0; i < 32; i++)` over the cycle time and the time stamp. -/
def Init {W : Type} (os : Win32 W) (value : Nat) (w : W) : Nat × W :=
  let seed := value
  let r := AddMemoryCounters os seed w
  let r := AddIoCounters os r.1 r.2
  let r := AddCursorPosition os r.1 r.2
  let r := (List.range 32).foldl (fun r _ =>
    let r := AddCycleTime os r.1 false r.2
    let r := AddTimeStamp os r.1 r.2
    r) r
  r

/-- Outcome of `Mrrng64::Next`: the `DWORD64` returned, the word stored into `*value`, and
the next world. -/
structure NextResult (W : Type) where
  returned : Nat
  stored : Nat
  world : W

/-- The function `Mrrng64::Next`. -/
def Next {W : Type} (os : Win32 W) (value : Nat) (w : W) : NextResult W :=
  let seed := value
  -- if (!seed.u64) Init(&seed.u64);
  let r := if seed = 0 then Init os seed w else (seed, w)
  let r := AddIoCounters os r.1 r.2
  let r := AddCycleTime os r.1 false r.2
  let r := AddTimeStamp os r.1 r.2
  -- *value = seed.u64; return seed.u64;
  { returned := r.1, stored := r.1, world := r.2 }

/-! ## `CalculateEntropy` -/

/-- The operations on `double` that `CalculateEntropy` performs: the literal `0.0`, the
literal `-1` converted to `double`, the conversion of an unsigned integer, `+`, `*`, `/`
and `log2`. -/
structure DoubleOps (F : Type) where
  zero : F
  negOne : F
  ofNat : Nat → F
  add : F → F → F
  mul : F → F → F
  div : F → F → F
  log2 : F → F

/-- The statement `frequencyList[current[j]]++` on the table `DWORD frequencyList[256]`: the
counter of the byte `c` is incremented modulo `2^32`. -/
def countByte (frequencyList : List Nat) (c : Nat) : List Nat :=
  frequencyList.set c ((frequencyList.getD c 0 + 1) % 2 ^ 32)

/-- The loop `while ((bytesRead = fread(&current, 0x01, 0x4000, file)) > 0)` with its inner
loop over `current[0 .. bytesRead-1]`; `file` is what is left of the stream, of which `fread`
delivers the next `0x4000` bytes, or fewer at the end. -/
def readLoop (file : List Nat) (frequencyList : List Nat) : List Nat :=
  -- current = file.take 0x4000, bytesRead = its length
  if _h : 0 < (file.take 0x4000).length then
    readLoop (file.drop 0x4000) ((file.take 0x4000).foldl countByte frequencyList)
  else frequencyList
termination_by file.length
decreasing_by
  simp only [List.length_take, List.length_drop] at *
  omega

/-- Body of the loop `for each (DWORD f in frequencyList)`. -/
def entropyStep {F : Type} (D : DoubleOps F) (fileSize : Nat) (entropy : F) (f : Nat) : F :=
  if f > 0 then
    -- frequency = double(f) / fileSize;
    let frequency := D.div (D.ofNat f) (D.ofNat fileSize)
    -- entropy += frequency * log2(frequency);
    D.add entropy (D.mul frequency (D.log2 frequency))
  else entropy

/-- The function `Mrrng64::CalculateEntropy(FILE* file)` on the stream `file` of bytes: the
`double` it prints. `fileSize` is the length of the stream converted to `size_t`. -/
def CalculateEntropy {F : Type} (D : DoubleOps F) (sizeof_size_t : Nat) (file : List Nat) :
    F :=
  -- fseek(file, 0L, SEEK_END); fileSize = _ftelli64(file); fseek(file, 0L, SEEK_SET);
  let fileSize := file.length % 2 ^ (8 * sizeof_size_t)
  -- DWORD frequencyList[256] = { 0 };
  let frequencyList := readLoop file (List.replicate 256 0)
  let entropy := frequencyList.foldl (entropyStep D fileSize) D.zero
  -- entropy *= -1;
  D.mul entropy D.negOne

/-! ## The reference mixer of the specification -/

/-- Lane update written in the specification: add the golden-ratio constant, xor the byte,
then multiply and add, every step modulo `2^32`. -/
def specLaneStep (lane b : Nat) : Nat :=
  ((((lane + 0x9e3779b9) % 2 ^ 32) ^^^ b) * 0xFFFFFFED + 0xFFFFFFC3) % 2 ^ 32

/-- One byte of the reference mixer on the pair (lane 0, lane 1): a zero byte is skipped, a
non-zero byte at offset `i` updates lane `i mod 2`. -/
def specByte (lanes : Nat × Nat) (i b : Nat) : Nat × Nat :=
  if b = 0 then lanes
  else if i % 2 = 0 then (specLaneStep lanes.1 b, lanes.2)
  else (lanes.1, specLaneStep lanes.2 b)

/-- Reference mixer of the specification: the bytes are processed by increasing offset,
`i` being the offset of the head of the list. -/
def specMix (lanes : Nat × Nat) (i : Nat) : List Nat → Nat × Nat
  | [] => lanes
  | b :: rest => specMix (specByte lanes i b) (i + 1) rest

/-- The 64-bit word whose low half is lane 0 and whose high half is lane 1. -/
def pack (lanes : Nat × Nat) : Nat := lanes.2 * 2 ^ 32 + lanes.1

/-- The two lanes of a 64-bit word. -/
def lanesOf (value : Nat) : Nat × Nat := (value % 2 ^ 32, value / 2 ^ 32)

/-- Both lanes are 32-bit values. -/
def Lanes32 (lanes : Nat × Nat) : Prop := lanes.1 < 2 ^ 32 ∧ lanes.2 < 2 ^ 32

/-- The offsets `0 .. n-1` of the reference mixer, read out of the buffer by index. -/
def specFold (buffer : List Nat) (n : Nat) (lanes : Nat × Nat) : Nat × Nat :=
  (List.range n).foldl (fun l i => specByte l i (buffer.getD i 0)) lanes

/-! ## The protocol of the specification -/

/-- The path of `Next` after the optional bootstrap, in the order of the specification:
IoCounters, CycleTime(process = false), TimeStamp. -/
def nextPath {W : Type} (os : Win32 W) (p : Nat × W) : Nat × W :=
  let a := AddIoCounters os p.1 p.2
  let b := AddCycleTime os a.1 false a.2
  AddTimeStamp os b.1 b.2

/-- One round of the bootstrap loop: CycleTime(process = false) followed by TimeStamp. -/
def initRound {W : Type} (os : Win32 W) (p : Nat × W) : Nat × W :=
  let a := AddCycleTime os p.1 false p.2
  AddTimeStamp os a.1 a.2

/-- The result of `Next` when its mixing ends in the state and world `p`: the state is both
returned and stored. -/
def emit {W : Type} (p : Nat × W) : NextResult W :=
  { returned := p.1, stored := p.1, world := p.2 }

/-- The nine candidate fields of the memory counters in priority order, each with the number
of bytes it occupies. -/
def memoryFields {W : Type} (os : Win32 W) (mc : PROCESS_MEMORY_COUNTERS) : List (Nat × Nat) :=
  [(mc.PageFaultCount, 4),
   (mc.PeakWorkingSetSize, os.sizeof_size_t),
   (mc.WorkingSetSize, os.sizeof_size_t),
   (mc.QuotaPeakPagedPoolUsage, os.sizeof_size_t),
   (mc.QuotaPagedPoolUsage, os.sizeof_size_t),
   (mc.QuotaPeakNonPagedPoolUsage, os.sizeof_size_t),
   (mc.QuotaNonPagedPoolUsage, os.sizeof_size_t),
   (mc.PagefileUsage, os.sizeof_size_t),
   (mc.PeakPagefileUsage, os.sizeof_size_t)]

/-- Mix the first non-zero field of a priority list, and nothing else. -/
def mixFirstNonZero (value : Nat) (fields : List (Nat × Nat)) : Nat :=
  match fields.find? (fun f => decide (f.1 ≠ 0)) with
  | some f => Add value (bytesLE f.2 f.1) f.2
  | none => value

/-- The six fields of the I/O counters in declaration order. -/
def ioFields (c : IO_COUNTERS) : List Nat :=
  [c.ReadOperationCount, c.WriteOperationCount, c.OtherOperationCount,
   c.ReadTransferCount, c.WriteTransferCount, c.OtherTransferCount]

/-- Fold over 64-bit fields: a non-zero field is mixed by its 8 raw bytes, a zero field is
skipped. -/
def mixNonZeroFields (value : Nat) (fields : List Nat) : Nat :=
  fields.foldl (fun s v => if v ≠ 0 then Add s (bytesLE 8 v) 8 else s) value

/-- Source selection of the cycle-time sampler as the specification words it, from the flag
and the outcomes of the process-level and of the thread-level query. -/
def cycleTimeSpec (value : Nat) (process : Bool) (procQ threadQ : Option Nat) : Nat :=
  match process, procQ with
  | true, some c => Add value (bytesLE 8 c) 8
  | _, _ =>
    match threadQ with
    | some c => Add value (bytesLE 8 c) 8
    | none => value

/-- No query of the operating system contributes a non-zero byte on the path of `Init` and
`Next`: each conditional query fails or delivers zero data, and the time stamp and the
performance counter read zero. -/
def Quiet {W : Type} (os : Win32 W) : Prop :=
  ∀ w : W,
    (os.GetSystemTimeAsFileTime w).1.dwLowDateTime = 0
    ∧ (os.GetSystemTimeAsFileTime w).1.dwHighDateTime = 0
    ∧ (os.QueryPerformanceCounter w).1.2 = 0
    ∧ (∀ c, (os.GetProcessIoCounters w).1 = some c → ∀ v ∈ ioFields c, v = 0)
    ∧ (∀ m, (os.GetProcessMemoryInfo w).1 = some m → ∀ f ∈ memoryFields os m, f.1 = 0)
    ∧ (∀ c, (os.QueryThreadCycleTime w).1 = some c → c = 0)
    ∧ (∀ p, (os.GetCursorPos w).1 = some p → p.x = 0 ∧ p.y = 0)

/-- The readings of the world `w` contribute no non-zero byte on the path of `Init` and
`Next`: at `w` each conditional query fails or delivers zero data, and the time stamp and
the performance counter read zero. -/
def QuietAt {W : Type} (os : Win32 W) (w : W) : Prop :=
  (os.GetSystemTimeAsFileTime w).1.dwLowDateTime = 0
    ∧ (os.GetSystemTimeAsFileTime w).1.dwHighDateTime = 0
    ∧ (os.QueryPerformanceCounter w).1.2 = 0
    ∧ (∀ c, (os.GetProcessIoCounters w).1 = some c → ∀ v ∈ ioFields c, v = 0)
    ∧ (∀ m, (os.GetProcessMemoryInfo w).1 = some m → ∀ f ∈ memoryFields os m, f.1 = 0)
    ∧ (∀ c, (os.QueryThreadCycleTime w).1 = some c → c = 0)
    ∧ (∀ p, (os.GetCursorPos w).1 = some p → p.x = 0 ∧ p.y = 0)

/-- The worlds of `S` are those a call goes through: `S` is closed under the queries of the
path of `Init` and `Next`, and the readings of each of its worlds are quiet. With `S` the
worlds reached from the one in which a call starts, this says that every query made during
the call fails or reads zero. -/
def QuietOn {W : Type} (os : Win32 W) (S : W → Prop) : Prop :=
  ∀ w : W, S w →
    QuietAt os w
      ∧ S (os.GetSystemTimeAsFileTime w).2
      ∧ S (os.QueryPerformanceCounter w).2
      ∧ S (os.GetProcessIoCounters w).2
      ∧ S (os.GetProcessMemoryInfo w).2
      ∧ S (os.QueryThreadCycleTime w).2
      ∧ S (os.GetCursorPos w).2

/-- Raw bytes of an `IO_COUNTERS`: the six 64-bit fields in declaration order, 48 bytes. -/
def IO_COUNTERS.bytes (c : IO_COUNTERS) : List Nat :=
  bytesLE 8 c.ReadOperationCount ++ (bytesLE 8 c.WriteOperationCount
    ++ (bytesLE 8 c.OtherOperationCount ++ (bytesLE 8 c.ReadTransferCount
    ++ (bytesLE 8 c.WriteTransferCount ++ bytesLE 8 c.OtherTransferCount))))

/-- Exact arithmetic on the reals, in place of the rounded arithmetic on `double`. -/
noncomputable def realOps : DoubleOps ℝ where
  zero := 0
  negOne := -1
  ofNat := fun n => (n : ℝ)
  add := fun x y => x + y
  mul := fun x y => x * y
  div := fun x y => x / y
  log2 := fun x => Real.logb 2 x

/-- The term of a bucket of count `f` in the sum of the specification,
`(count/total) * log2(count/total)`, taken over the buckets of non-zero count. -/
noncomputable def entropyTerm (fileSize f : Nat) : ℝ :=
  if f > 0 then ((f : ℝ) / (fileSize : ℝ)) * Real.logb 2 ((f : ℝ) / (fileSize : ℝ)) else 0

/-- The frequency table as the 32-bit counters hold it: for each byte value, the number of
its occurrences in the stream modulo `2^32`. -/
def countTable (file : List Nat) : List Nat :=
  (List.range 256).map (fun v => file.count v % 2 ^ 32)

/-- The stream `0, 1, ..., 255` repeated `k` times: each byte value occurs `k` times. -/
def cycles : Nat → List Nat
  | 0 => []
  | k + 1 => List.range 256 ++ cycles k

/-! ## Two concrete operating systems -/

/-- An operating system in which every conditional query fails and the clocks read zero. -/
def silentOS : Win32 Unit where
  sizeof_size_t := 8
  GetSystemTimeAsFileTime := fun w => ({ dwLowDateTime := 0, dwHighDateTime := 0 }, w)
  QueryPerformanceCounter := fun w => ((false, 0), w)
  GetProcessIoCounters := fun w => (none, w)
  GetProcessMemoryInfo := fun w => (none, w)
  QueryProcessCycleTime := fun w => (none, w)
  QueryThreadCycleTime := fun w => (none, w)
  GetCursorPos := fun w => (none, w)

/-- Memory counters of a process that has not faulted yet: the first two candidate fields
are zero. -/
def tickMemory : PROCESS_MEMORY_COUNTERS :=
  { PageFaultCount := 0, PeakWorkingSetSize := 0, WorkingSetSize := 5320704,
    QuotaPeakPagedPoolUsage := 98304, QuotaPagedPoolUsage := 0,
    QuotaPeakNonPagedPoolUsage := 6144, QuotaNonPagedPoolUsage := 6000,
    PagefileUsage := 1048576, PeakPagefileUsage := 1050000 }

/-- I/O counters at tick `n`: two of the six fields are zero. -/
def tickIo (n : Nat) : IO_COUNTERS :=
  { ReadOperationCount := 12 + n, WriteOperationCount := 0, OtherOperationCount := 345,
    ReadTransferCount := 4096, WriteTransferCount := 0, OtherTransferCount := 7890 }

/-- An operating system whose world is a tick count: every query advances the tick, the
clocks depend on it, the process-level cycle query fails and all others succeed. -/
def tickOS : Win32 Nat where
  sizeof_size_t := 8
  GetSystemTimeAsFileTime := fun n =>
    ({ dwLowDateTime := 0x5A3B1C00 + 977 * n, dwHighDateTime := 0x01D0F3A2 }, n + 1)
  QueryPerformanceCounter := fun n => ((true, 0x2F00000000 + 1000003 * n), n + 1)
  GetProcessIoCounters := fun n => (some (tickIo n), n + 1)
  GetProcessMemoryInfo := fun n => (some tickMemory, n + 1)
  QueryProcessCycleTime := fun n => (none, n + 1)
  QueryThreadCycleTime := fun n => (some (31415926 + 2718 * n), n + 1)
  GetCursorPos := fun n => (some { x := 640, y := -3 }, n + 1)

/-- The operating system `tickOS` with three readings of the last steps of a first call to
`Next` replaced: the thread cycle count at tick 100, the time stamp at tick 101 and the
performance counter at tick 102. Every query but the process-level one still succeeds with
non-zero data, and the three clocks still increase. -/
def liveOS : Win32 Nat :=
  { tickOS with
    GetSystemTimeAsFileTime := fun n =>
      ({ dwLowDateTime := if n = 101 then 0xE4E6AA40 else 0x5A3B1C00 + 977 * n,
         dwHighDateTime := 0x01D0F3A2 }, n + 1)
    QueryPerformanceCounter := fun n =>
      ((true, if n = 102 then 0x71CC70B0D5BD else 0x2F00000000 + 1000003 * n), n + 1)
    QueryThreadCycleTime := fun n =>
      (some (if n = 100 then 0x1302E519C37 else 31415926 + 2718 * n), n + 1) }

/-! ## Lemmas on the union -/

theorem u32get_pack_zero (lo hi : Nat) (hlo : lo < 2 ^ 32) :
    u32get (hi * 2 ^ 32 + lo) 0 = lo := by
  simp only [u32get, if_true]
  omega

theorem u32get_pack_one (lo hi k : Nat) (hk : k ≠ 0) (hlo : lo < 2 ^ 32) (hhi : hi < 2 ^ 32) :
    u32get (hi * 2 ^ 32 + lo) k = hi := by
  simp only [u32get, if_neg hk]
  omega

theorem u32set_pack_zero (lo hi v : Nat) (hlo : lo < 2 ^ 32) (hhi : hi < 2 ^ 32) :
    u32set (hi * 2 ^ 32 + lo) 0 v = hi * 2 ^ 32 + v % 2 ^ 32 := by
  simp only [u32set, if_true]
  omega

theorem u32set_pack_one (lo hi k v : Nat) (hk : k ≠ 0) (hlo : lo < 2 ^ 32) :
    u32set (hi * 2 ^ 32 + lo) k v = v % 2 ^ 32 * 2 ^ 32 + lo := by
  simp only [u32set, if_neg hk]
  omega

theorem and_mask32 (x : Nat) : x % 2 ^ 32 &&& 0xFFFFFFFF = x % 2 ^ 32 := by
  have h : (0xFFFFFFFF : Nat) = 2 ^ 32 - 1 := by norm_num
  rw [h, Nat.and_pow_two_sub_one_eq_mod, Nat.mod_mod]

theorem specLaneStep_lt (lane b : Nat) : specLaneStep lane b < 2 ^ 32 := by
  unfold specLaneStep
  exact Nat.mod_lt _ (by norm_num)

/-- The three stores of the loop body compute the specification's lane update. -/
theorem lane_update_eq (x b : Nat) :
    (((((x + 0x9e3779b9) % 2 ^ 32 % 2 ^ 32 ^^^ b) % 2 ^ 32 * 0xFFFFFFED) % 2 ^ 32
      + 0xFFFFFFC3) % 2 ^ 32 &&& 0xFFFFFFFF) % 2 ^ 32 = specLaneStep x b := by
  rw [and_mask32, Nat.mod_mod, Nat.mod_mod]
  unfold specLaneStep
  rw [Nat.add_mod ((((x + 0x9e3779b9) % 2 ^ 32 ^^^ b) % 2 ^ 32 * 0xFFFFFFED) % 2 ^ 32),
    Nat.mod_mod, Nat.mul_mod, Nat.mod_mod, ← Nat.mul_mod, ← Nat.add_mod]

theorem AddBody_pack (buffer : List Nat) (i lo hi : Nat) (hlo : lo < 2 ^ 32)
    (hhi : hi < 2 ^ 32) :
    AddBody buffer i (hi * 2 ^ 32 + lo) = pack (specByte (lo, hi) i (buffer.getD i 0)) := by
  have hm : ∀ x : Nat, x % 2 ^ 32 < 2 ^ 32 := fun x => Nat.mod_lt _ (by norm_num)
  unfold AddBody specByte pack
  by_cases hb : buffer.getD i 0 = 0
  · simp only [ne_eq, hb, not_true_eq_false, if_true, if_false]
  · simp only [ne_eq, hb, not_false_eq_true, if_true, if_false]
    by_cases hk : i % 2 = 0
    · simp only [hk, if_true]
      rw [u32get_pack_zero lo hi hlo, u32set_pack_zero lo hi _ hlo hhi,
        u32get_pack_zero _ hi (hm _), u32set_pack_zero _ hi _ (hm _) hhi,
        u32get_pack_zero _ hi (hm _), u32set_pack_zero _ hi _ (hm _) hhi, lane_update_eq]
    · simp only [hk, if_false]
      rw [u32get_pack_one lo hi _ hk hlo hhi, u32set_pack_one lo hi _ _ hk hlo,
        u32get_pack_one lo _ _ hk hlo (hm _), u32set_pack_one lo _ _ _ hk hlo,
        u32get_pack_one lo _ _ hk hlo (hm _), u32set_pack_one lo _ _ _ hk hlo, lane_update_eq]

theorem specByte_lanes32 (lanes : Nat × Nat) (i b : Nat) (h : Lanes32 lanes) :
    Lanes32 (specByte lanes i b) := by
  unfold specByte
  split_ifs
  · exact h
  · exact ⟨specLaneStep_lt _ _, h.2⟩
  · exact ⟨h.1, specLaneStep_lt _ _⟩

theorem lanesOf_lanes32 (value : Nat) (h : value < 2 ^ 64) : Lanes32 (lanesOf value) := by
  unfold Lanes32 lanesOf
  constructor
  · exact Nat.mod_lt _ (by norm_num)
  · simp only
    omega

theorem pack_lanesOf (value : Nat) : pack (lanesOf value) = value := by
  unfold pack lanesOf
  simp only
  omega

theorem specFold_succ (buffer : List Nat) (n : Nat) (lanes : Nat × Nat) :
    specFold buffer (n + 1) lanes
      = specByte (specFold buffer n lanes) n (buffer.getD n 0) := by
  unfold specFold
  rw [List.range_succ, List.foldl_append]
  rfl

theorem specFold_lanes32 (buffer : List Nat) (n : Nat) (lanes : Nat × Nat)
    (h : Lanes32 lanes) : Lanes32 (specFold buffer n lanes) := by
  induction n with
  | zero => exact h
  | succ n ih =>
    rw [specFold_succ]
    exact specByte_lanes32 _ _ _ ih

theorem Add_succ (value : Nat) (buffer : List Nat) (n : Nat) :
    Add value buffer (n + 1) = AddBody buffer n (Add value buffer n) := by
  unfold Add
  simp only
  rw [List.range_succ, List.foldl_append]
  rfl

theorem Add_pack (buffer : List Nat) (n : Nat) (lanes : Nat × Nat) (h : Lanes32 lanes) :
    Add (pack lanes) buffer n = pack (specFold buffer n lanes) := by
  induction n with
  | zero => simp only [Add, specFold, List.range_zero, List.foldl_nil]
  | succ n ih =>
    rw [Add_succ, ih, specFold_succ]
    have hb := specFold_lanes32 buffer n lanes h
    exact AddBody_pack buffer n _ _ hb.1 hb.2

theorem specMix_append (lanes : Nat × Nat) (i : Nat) (xs ys : List Nat) :
    specMix lanes i (xs ++ ys) = specMix (specMix lanes i xs) (i + xs.length) ys := by
  induction xs generalizing lanes i with
  | nil => rfl
  | cons x xs ih =>
    show specMix (specByte lanes i x) (i + 1) (xs ++ ys) = _
    rw [ih, List.length_cons, Nat.add_comm xs.length 1, ← Nat.add_assoc]
    simp only [specMix]

theorem specFold_congr (b1 b2 : List Nat) (n : Nat) (lanes : Nat × Nat)
    (h : ∀ i, i < n → b1.getD i 0 = b2.getD i 0) :
    specFold b1 n lanes = specFold b2 n lanes := by
  induction n with
  | zero => simp only [specFold, List.range_zero, List.foldl_nil]
  | succ n ih =>
    rw [specFold_succ, specFold_succ, ih (fun i hi => h i (by omega)), h n (by omega)]

theorem specFold_eq_specMix (buffer : List Nat) (lanes : Nat × Nat) :
    specFold buffer buffer.length lanes = specMix lanes 0 buffer := by
  induction buffer using List.reverseRecOn with
  | nil => simp only [specFold, specMix, List.length_nil, List.range_zero, List.foldl_nil]
  | append_singleton pre b ih =>
    rw [List.length_append, List.length_singleton, specFold_succ, specMix_append, ← ih]
    have h1 : specFold (pre ++ [b]) pre.length lanes = specFold pre pre.length lanes := by
      apply specFold_congr
      intro i hi
      rw [List.getD_append _ _ _ _ hi]
    have h2 : (pre ++ [b]).getD pre.length 0 = b := by
      rw [List.getD_append_right _ _ _ _ (le_refl _)]
      simp
    rw [h1, h2, Nat.zero_add]
    simp only [specMix]

theorem Add_lanes (value : Nat) (buffer : List Nat) (n : Nat) (h : value < 2 ^ 64) :
    Add value buffer n = pack (specFold buffer n (lanesOf value))
      ∧ Lanes32 (specFold buffer n (lanesOf value)) := by
  have hl := lanesOf_lanes32 value h
  refine ⟨?_, specFold_lanes32 buffer n _ hl⟩
  rw [← Add_pack buffer n _ hl, pack_lanesOf]

theorem u32get_pack (lanes : Nat × Nat) (h : Lanes32 lanes) :
    u32get (pack lanes) 0 = lanes.1 ∧ u32get (pack lanes) 1 = lanes.2 :=
  ⟨u32get_pack_zero _ _ h.1, u32get_pack_one _ _ 1 (by decide) h.1 h.2⟩

theorem u32get_lanesOf (value : Nat) (h : value < 2 ^ 64) :
    u32get value 0 = (lanesOf value).1 ∧ u32get value 1 = (lanesOf value).2 := by
  have := u32get_pack (lanesOf value) (lanesOf_lanes32 value h)
  rwa [pack_lanesOf] at this

theorem getD_zero_of_all_zero (buffer : List Nat) (h : ∀ b ∈ buffer, b = 0) (i : Nat) :
    buffer.getD i 0 = 0 := by
  induction buffer generalizing i with
  | nil => rfl
  | cons x xs ih =>
    cases i with
    | zero => exact h x (List.mem_cons_self _ _)
    | succ j => exact ih (fun b hb => h b (List.mem_cons_of_mem _ hb)) j

theorem specFold_fst_congr (b1 b2 : List Nat) (n : Nat) (l1 l2 : Nat × Nat)
    (hl : l1.1 = l2.1) (hb : ∀ i, i < n → i % 2 = 0 → b1.getD i 0 = b2.getD i 0) :
    (specFold b1 n l1).1 = (specFold b2 n l2).1 := by
  induction n with
  | zero => simpa only [specFold, List.range_zero, List.foldl_nil] using hl
  | succ n ih =>
    have ih2 := ih (fun i hi => hb i (by omega))
    rw [specFold_succ, specFold_succ]
    unfold specByte
    by_cases hk : n % 2 = 0
    · rw [hb n (by omega) hk]
      split_ifs
      · exact ih2
      · simp only [ih2]
    · split_ifs <;> exact ih2

theorem specFold_snd_congr (b1 b2 : List Nat) (n : Nat) (l1 l2 : Nat × Nat)
    (hl : l1.2 = l2.2) (hb : ∀ i, i < n → i % 2 = 1 → b1.getD i 0 = b2.getD i 0) :
    (specFold b1 n l1).2 = (specFold b2 n l2).2 := by
  induction n with
  | zero => simpa only [specFold, List.range_zero, List.foldl_nil] using hl
  | succ n ih =>
    have ih2 := ih (fun i hi => hb i (by omega))
    rw [specFold_succ, specFold_succ]
    unfold specByte
    by_cases hk : n % 2 = 0
    · split_ifs <;> exact ih2
    · rw [hb n (by omega) (by omega)]
      split_ifs
      · exact ih2
      · simp only [ih2]

theorem Add_of_all_zero (value : Nat) (buffer : List Nat) (n : Nat)
    (h : ∀ b ∈ buffer, b = 0) : Add value buffer n = value := by
  induction n with
  | zero => simp only [Add, List.range_zero, List.foldl_nil]
  | succ n ih =>
    rw [Add_succ, ih]
    unfold AddBody
    rw [getD_zero_of_all_zero buffer h n]
    simp only [ne_eq, not_true_eq_false, if_false]

theorem bytesLE_zero (n : Nat) : ∀ b ∈ bytesLE n 0, b = 0 := by
  induction n with
  | zero => intro b hb; simp [bytesLE] at hb
  | succ n ih =>
    intro b hb
    simp only [bytesLE, Nat.zero_mod, Nat.zero_div, List.mem_cons] at hb
    rcases hb with rfl | hb
    · rfl
    · exact ih b hb

theorem foldl_range_const {α : Type} (f : α → α) (n : Nat) (x : α) :
    (List.range n).foldl (fun r _ => f r) x = f^[n] x := by
  induction n with
  | zero => rfl
  | succ n ih =>
    rw [List.range_succ, List.foldl_append, ih, Function.iterate_succ_apply']
    rfl

/-! ## Samplers of a quiet operating system -/

theorem AddTimeStamp_quiet {W : Type} (os : Win32 W) (h : Quiet os) (value : Nat) (w : W) :
    (AddTimeStamp os value w).1 = value := by
  obtain ⟨h1, h2, -⟩ := h w
  obtain ⟨-, -, h3, -⟩ := h (os.GetSystemTimeAsFileTime w).2
  simp only [AddTimeStamp, FILETIME.bytes, h1, h2, h3]
  rw [Add_of_all_zero _ (bytesLE 4 0 ++ bytesLE 4 0) 8, Add_of_all_zero _ _ 8 (bytesLE_zero 8)]
  intro b hb
  rcases List.mem_append.1 hb with hb | hb <;> exact bytesLE_zero 4 b hb

theorem AddIoCounters_quiet {W : Type} (os : Win32 W) (h : Quiet os) (value : Nat) (w : W) :
    (AddIoCounters os value w).1 = value := by
  obtain ⟨-, -, -, h4, -⟩ := h w
  unfold AddIoCounters
  rcases hq : os.GetProcessIoCounters w with ⟨_ | c, w1⟩
  · rfl
  · have hz := h4 c (by rw [hq])
    simp only [ioFields, List.mem_cons, List.mem_singleton, forall_eq_or_imp, forall_eq] at hz
    obtain ⟨z1, z2, z3, z4, z5, z6, -⟩ := hz
    simp only [z1, z2, z3, z4, z5, z6, ne_eq, not_true_eq_false, if_false]

theorem AddMemoryCounters_quiet {W : Type} (os : Win32 W) (h : Quiet os) (value : Nat)
    (w : W) : (AddMemoryCounters os value w).1 = value := by
  obtain ⟨-, -, -, -, h5, -⟩ := h w
  unfold AddMemoryCounters
  rcases hq : os.GetProcessMemoryInfo w with ⟨_ | m, w1⟩
  · rfl
  · have hz := h5 m (by rw [hq])
    simp only [memoryFields, List.mem_cons, List.mem_singleton, forall_eq_or_imp, forall_eq]
      at hz
    obtain ⟨z1, z2, z3, z4, z5, z6, z7, z8, z9, -⟩ := hz
    simp only [z1, z2, z3, z4, z5, z6, z7, z8, z9, ne_eq, not_true_eq_false, if_false]

theorem AddCycleTime_thread_quiet {W : Type} (os : Win32 W) (h : Quiet os) (value : Nat)
    (w : W) : (AddCycleTime os value false w).1 = value := by
  obtain ⟨-, -, -, -, -, h6, -⟩ := h w
  unfold AddCycleTime
  simp only [Bool.false_eq_true, if_false]
  rcases hq : os.QueryThreadCycleTime w with ⟨_ | c, w1⟩
  · rfl
  · have hz := h6 c (by rw [hq])
    subst hz
    exact Add_of_all_zero _ _ 8 (bytesLE_zero 8)

theorem AddCursorPosition_quiet {W : Type} (os : Win32 W) (h : Quiet os) (value : Nat)
    (w : W) : (AddCursorPosition os value w).1 = value := by
  obtain ⟨-, -, -, -, -, -, h7⟩ := h w
  unfold AddCursorPosition
  rcases hq : os.GetCursorPos w with ⟨_ | p, w1⟩
  · rfl
  · obtain ⟨hx, hy⟩ := h7 p (by rw [hq])
    simp only [POINT.bytes, hx, hy]
    apply Add_of_all_zero
    intro b hb
    rcases List.mem_append.1 hb with hb | hb <;> exact bytesLE_zero 4 b hb

theorem initRound_quiet {W : Type} (os : Win32 W) (h : Quiet os) (p : Nat × W) :
    (initRound os p).1 = p.1 := by
  unfold initRound
  simp only
  rw [AddTimeStamp_quiet os h, AddCycleTime_thread_quiet os h]

theorem iterate_initRound_quiet {W : Type} (os : Win32 W) (h : Quiet os) (n : Nat)
    (p : Nat × W) : ((initRound os)^[n] p).1 = p.1 := by
  induction n with
  | zero => rfl
  | succ n ih => rw [Function.iterate_succ_apply', initRound_quiet os h, ih]

theorem Init_eq_iterate {W : Type} (os : Win32 W) (value : Nat) (w : W) :
    Init os value w =
      (initRound os)^[32]
        (AddCursorPosition os
          (AddIoCounters os (AddMemoryCounters os value w).1 (AddMemoryCounters os value w).2).1
          (AddIoCounters os (AddMemoryCounters os value w).1
            (AddMemoryCounters os value w).2).2) := by
  unfold Init
  simp only
  exact foldl_range_const (initRound os) 32 _

theorem Init_quiet {W : Type} (os : Win32 W) (h : Quiet os) (value : Nat) (w : W) :
    (Init os value w).1 = value := by
  rw [Init_eq_iterate, iterate_initRound_quiet os h, AddCursorPosition_quiet os h,
    AddIoCounters_quiet os h, AddMemoryCounters_quiet os h]

theorem nextPath_quiet {W : Type} (os : Win32 W) (h : Quiet os) (p : Nat × W) :
    (nextPath os p).1 = p.1 := by
  unfold nextPath
  simp only
  rw [AddTimeStamp_quiet os h, AddCycleTime_thread_quiet os h, AddIoCounters_quiet os h]

theorem silentOS_quiet : Quiet silentOS := by
  intro w
  simp [silentOS]

theorem mixFirstNonZero_split (value : Nat) (pre post : List (Nat × Nat)) (f : Nat × Nat)
    (hpre : ∀ g ∈ pre, g.1 = 0) (hf : f.1 ≠ 0) :
    mixFirstNonZero value (pre ++ f :: post) = Add value (bytesLE f.2 f.1) f.2 := by
  unfold mixFirstNonZero
  induction pre with
  | nil => simp only [List.nil_append, List.find?_cons, hf, ne_eq, not_false_eq_true,
      decide_True]
  | cons g pre ih =>
    have hg : g.1 = 0 := hpre g (List.mem_cons_self _ _)
    simp only [List.cons_append, List.find?_cons, hg, ne_eq, not_true_eq_false, decide_False]
    exact ih (fun x hx => hpre x (List.mem_cons_of_mem _ hx))

theorem mixFirstNonZero_all_zero (value : Nat) (fields : List (Nat × Nat))
    (h : ∀ g ∈ fields, g.1 = 0) : mixFirstNonZero value fields = value := by
  unfold mixFirstNonZero
  induction fields with
  | nil => rfl
  | cons g rest ih =>
    have hg : g.1 = 0 := h g (List.mem_cons_self _ _)
    simp only [List.find?_cons, hg, ne_eq, not_true_eq_false, decide_False]
    exact ih (fun x hx => h x (List.mem_cons_of_mem _ hx))

theorem AddMemoryCounters_eq {W : Type} (os : Win32 W) (value : Nat) (w w1 : W)
    (mc : PROCESS_MEMORY_COUNTERS) (hq : os.GetProcessMemoryInfo w = (some mc, w1)) :
    AddMemoryCounters os value w = (mixFirstNonZero value (memoryFields os mc), w1) := by
  unfold AddMemoryCounters mixFirstNonZero memoryFields
  rw [hq]
  simp only [List.find?_cons, List.find?_nil]
  by_cases h1 : mc.PageFaultCount = 0
  swap
  · simp only [h1, ne_eq, not_false_eq_true, decide_True, if_true]
  by_cases h2 : mc.PeakWorkingSetSize = 0
  swap
  · simp only [h1, h2, ne_eq, not_true_eq_false, not_false_eq_true, decide_True, decide_False,
      if_true, if_false]
  by_cases h3 : mc.WorkingSetSize = 0
  swap
  · simp only [h1, h2, h3, ne_eq, not_true_eq_false, not_false_eq_true, decide_True,
      decide_False, if_true, if_false]
  by_cases h4 : mc.QuotaPeakPagedPoolUsage = 0
  swap
  · simp only [h1, h2, h3, h4, ne_eq, not_true_eq_false, not_false_eq_true, decide_True,
      decide_False, if_true, if_false]
  by_cases h5 : mc.QuotaPagedPoolUsage = 0
  swap
  · simp only [h1, h2, h3, h4, h5, ne_eq, not_true_eq_false, not_false_eq_true, decide_True,
      decide_False, if_true, if_false]
  by_cases h6 : mc.QuotaPeakNonPagedPoolUsage = 0
  swap
  · simp only [h1, h2, h3, h4, h5, h6, ne_eq, not_true_eq_false, not_false_eq_true,
      decide_True, decide_False, if_true, if_false]
  by_cases h7 : mc.QuotaNonPagedPoolUsage = 0
  swap
  · simp only [h1, h2, h3, h4, h5, h6, h7, ne_eq, not_true_eq_false, not_false_eq_true,
      decide_True, decide_False, if_true, if_false]
  by_cases h8 : mc.PagefileUsage = 0
  swap
  · simp only [h1, h2, h3, h4, h5, h6, h7, h8, ne_eq, not_true_eq_false, not_false_eq_true,
      decide_True, decide_False, if_true, if_false]
  by_cases h9 : mc.PeakPagefileUsage = 0 <;>
  simp only [h1, h2, h3, h4, h5, h6, h7, h8, h9, ne_eq, not_true_eq_false, not_false_eq_true,
    decide_True, decide_False, if_true, if_false]

/-! ## Claims on `Add` -/

/-- C1. `Add` equals the reference mixer: for a 64-bit state and any buffer, the word stored
back is the one whose lanes are obtained by running the specification's per-byte rule over
the offsets `0 .. length-1` in increasing order (zero byte: nothing; non-zero byte `b` at
offset `i`: lane `i mod 2` becomes
`((((lane + 0x9e3779b9) mod 2^32) xor b) * 0xFFFFFFED + 0xFFFFFFC3) mod 2^32`), and both
lanes stay 32-bit values. -/
theorem Add_eq_reference_mixer (value : Nat) (buffer : List Nat) (h : value < 2 ^ 64) :
    Add value buffer buffer.length = pack (specMix (lanesOf value) 0 buffer)
      ∧ Lanes32 (specMix (lanesOf value) 0 buffer) := by
  have := Add_lanes value buffer buffer.length h
  rwa [specFold_eq_specMix] at this

theorem Add_eq_reference_mixer_witness :
    (0x0123456789ABCDEF : Nat) < 2 ^ 64
      ∧ Add 0x0123456789ABCDEF [7, 0, 255, 16] 4
          = pack (specMix (lanesOf 0x0123456789ABCDEF) 0 [7, 0, 255, 16]) :=
  ⟨by decide, (Add_eq_reference_mixer 0x0123456789ABCDEF [7, 0, 255, 16] (by decide)).1⟩

/-- C2. Identity law: on a buffer all of whose bytes are zero (of any length, the empty one
included) `Add` returns the state it was given. -/
theorem Add_zero_buffer (value : Nat) (buffer : List Nat) (h : ∀ b ∈ buffer, b = 0) :
    Add value buffer buffer.length = value :=
  Add_of_all_zero value buffer buffer.length h

theorem Add_zero_buffer_witness :
    (∀ b ∈ [0, 0, 0, 0, 0], b = 0) ∧ Add 0xDEADBEEF00C0FFEE [0, 0, 0, 0, 0] 5
      = 0xDEADBEEF00C0FFEE :=
  ⟨by decide, Add_zero_buffer 0xDEADBEEF00C0FFEE [0, 0, 0, 0, 0] (by decide)⟩

/-- C3, as stated, fails: with lane 0 equal to `270014546` the byte `224` is a fixed point
of the lane update, so `Add` on the single-byte buffer `[224]` leaves lane 0 (and the whole
state) as it was although the byte is non-zero. -/
theorem Add_single_byte_lane0_fixed :
    (224 : Nat) ≠ 0 ∧ (224 : Nat) < 256 ∧ (270014546 : Nat) < 2 ^ 64
      ∧ u32get (Add 270014546 [224] 1) 0 = u32get 270014546 0
      ∧ Add 270014546 [224] 1 = 270014546 := by
  decide

/-- C3, amended. For a 64-bit state and a byte `b ≠ 0`, `Add` on the single-byte buffer `[b]`
leaves lane 1 (the high half) bit-for-bit identical and stores into lane 0 (the low half) the
lane update of its previous value by `b`; no other lane is written. -/
theorem Add_single_byte (value b : Nat) (h : value < 2 ^ 64) (hb : b ≠ 0) :
    u32get (Add value [b] 1) 1 = u32get value 1
      ∧ u32get (Add value [b] 1) 0 = specLaneStep (u32get value 0) b := by
  obtain ⟨h1, h2⟩ := Add_lanes value [b] [b].length h
  rw [specFold_eq_specMix] at h1 h2
  have h3 : Add value [b] 1 = pack (specMix (lanesOf value) 0 [b]) := h1
  obtain ⟨g0, g1⟩ := u32get_pack _ h2
  obtain ⟨v0, v1⟩ := u32get_lanesOf value h
  rw [h3, g0, g1, v0, v1]
  simp only [specMix, specByte, hb, if_false, Nat.zero_mod, if_true, and_self]

theorem Add_single_byte_witness :
    (0xAABBCCDD11223344 : Nat) < 2 ^ 64 ∧ (5 : Nat) ≠ 0
      ∧ u32get (Add 0xAABBCCDD11223344 [5] 1) 1 = u32get 0xAABBCCDD11223344 1 :=
  ⟨by decide, by decide, (Add_single_byte 0xAABBCCDD11223344 5 (by decide) (by decide)).1⟩

/-- C4. The two lanes of `Add` are independent. For `k = 0` (resp. `k = 1`): two 64-bit
states that agree on lane `k` and two buffers of equal length that agree at every even
(resp. odd) offset are mixed into results that agree on lane `k`. -/
theorem Add_lane_independent (k : Nat) (hk : k < 2) (v1 v2 : Nat) (b1 b2 : List Nat)
    (hv1 : v1 < 2 ^ 64) (hv2 : v2 < 2 ^ 64) (hlen : b1.length = b2.length)
    (hlane : u32get v1 k = u32get v2 k)
    (hb : ∀ i, i < b1.length → i % 2 = k → b1.getD i 0 = b2.getD i 0) :
    u32get (Add v1 b1 b1.length) k = u32get (Add v2 b2 b2.length) k := by
  obtain ⟨e1, l1⟩ := Add_lanes v1 b1 b1.length hv1
  obtain ⟨e2, l2⟩ := Add_lanes v2 b2 b2.length hv2
  obtain ⟨p1, q1⟩ := u32get_lanesOf v1 hv1
  obtain ⟨p2, q2⟩ := u32get_lanesOf v2 hv2
  rw [e1, e2]
  rw [← hlen] at l2 ⊢
  have hk2 : k = 0 ∨ k = 1 := by omega
  rcases hk2 with rfl | rfl
  · rw [(u32get_pack _ l1).1, (u32get_pack _ l2).1]
    exact specFold_fst_congr b1 b2 _ _ _ (by rw [← p1, ← p2]; exact hlane) hb
  · rw [(u32get_pack _ l1).2, (u32get_pack _ l2).2]
    exact specFold_snd_congr b1 b2 _ _ _ (by rw [← q1, ← q2]; exact hlane) hb

theorem Add_lane_independent_witness :
    u32get (Add 0x1111111100000007 [9, 1, 0, 2] 4) 0
      = u32get (Add 0x2222222200000007 [9, 200, 0, 77] 4) 0 :=
  Add_lane_independent 0 (by decide) 0x1111111100000007 0x2222222200000007 [9, 1, 0, 2]
    [9, 200, 0, 77] (by decide) (by decide) (by decide) (by decide) (by decide)

/-! ## Claims on `Next`, `Init` and the samplers -/

/-- C5. `Next` is the fixed composition: the state is first replaced by `Init` of it exactly
when it is 0 (and kept, with no query made, when it is not), then mixed by AddIoCounters,
AddCycleTime(process = false) and AddTimeStamp in this order, each on the world left by the
previous step; the value returned equals the state stored back. -/
theorem Next_composition {W : Type} (os : Win32 W) (value : Nat) (w : W) :
    Next os value w = emit (nextPath os (if value = 0 then Init os value w else (value, w)))
      ∧ (Next os value w).returned = (Next os value w).stored :=
  ⟨rfl, rfl⟩

/-- C6. `Init` is the fixed composition: AddMemoryCounters, AddIoCounters and
AddCursorPosition once each, then exactly 32 rounds of AddCycleTime(process = false)
followed by AddTimeStamp, each step on the world left by the previous one. -/
theorem Init_composition {W : Type} (os : Win32 W) (value : Nat) (w : W) :
    Init os value w =
      (initRound os)^[32]
        (AddCursorPosition os
          (AddIoCounters os (AddMemoryCounters os value w).1 (AddMemoryCounters os value w).2).1
          (AddIoCounters os (AddMemoryCounters os value w).1
            (AddMemoryCounters os value w).2).2) :=
  Init_eq_iterate os value w

set_option maxRecDepth 100000 in
/-- C7, as stated, fails. When every conditional query fails and the clocks read zero
(`silentOS`), a call to `Next` on the state 0 stores and returns 0, so the state is still
UNINITIALIZED after the call. -/
theorem Next_zero_stays_zero :
    (Next silentOS 0 ()).stored = 0 ∧ (Next silentOS 0 ()).returned = 0 := by
  decide

/-- C7, amended. A call to `Next` on the state 0 runs the bootstrap `Init` inside the call,
before the three samplers of the `Next` path, and returns the state it stores; that state is
0 again whenever no query contributes a non-zero byte, so it is non-zero only if some query
did (which does not suffice). -/
theorem Next_zero_bootstrap {W : Type} (os : Win32 W) (w : W) :
    Next os 0 w = emit (nextPath os (Init os 0 w))
      ∧ (Next os 0 w).returned = (Next os 0 w).stored
      ∧ (Quiet os → (Next os 0 w).stored = 0)
      ∧ ((Next os 0 w).stored ≠ 0 → ¬ Quiet os) := by
  have hq : Quiet os → (Next os 0 w).stored = 0 := by
    intro h
    show (nextPath os (Init os 0 w)).1 = 0
    rw [nextPath_quiet os h, Init_quiet os h]
  exact ⟨rfl, rfl, hq, fun hne h => hne (hq h)⟩

theorem Next_zero_bootstrap_witness :
    Quiet silentOS ∧ (Next silentOS 0 ()).stored = 0 :=
  ⟨silentOS_quiet, (Next_zero_bootstrap silentOS ()).2.2.1 silentOS_quiet⟩

/-- A failed activation does not need silent queries: on `liveOS` every query consulted by
a first call to `Next` succeeds with non-zero data, and the call still mixes the state 0
back to 0. -/
theorem Next_zero_stays_zero_live :
    (Next liveOS 0 0).stored = 0 ∧ (Next liveOS 0 0).returned = 0
      ∧ (Next liveOS 0 0).world = 103 := by
  decide!

/-- C8. MemoryCounters priority chain: when the memory query succeeds, AddMemoryCounters
mixes the raw bytes of the first non-zero field of the nine candidates in priority order
(`PageFaultCount` on 4 bytes, the eight sizes on `sizeof(size_t)` bytes) and nothing else:
whatever follows that field has no influence, and if all nine fields are zero the state is
returned as it was. -/
theorem AddMemoryCounters_priority {W : Type} (os : Win32 W) (value : Nat) (w w1 : W)
    (mc : PROCESS_MEMORY_COUNTERS) (hq : os.GetProcessMemoryInfo w = (some mc, w1)) :
    AddMemoryCounters os value w = (mixFirstNonZero value (memoryFields os mc), w1)
      ∧ (∀ pre f post, memoryFields os mc = pre ++ f :: post → (∀ g ∈ pre, g.1 = 0) →
          f.1 ≠ 0 → (AddMemoryCounters os value w).1 = Add value (bytesLE f.2 f.1) f.2)
      ∧ ((∀ g ∈ memoryFields os mc, g.1 = 0) → (AddMemoryCounters os value w).1 = value) := by
  have h := AddMemoryCounters_eq os value w w1 mc hq
  refine ⟨h, ?_, ?_⟩
  · intro pre f post hsplit hpre hf
    rw [h, hsplit]
    exact mixFirstNonZero_split value pre post f hpre hf
  · intro hz
    rw [h]
    exact mixFirstNonZero_all_zero value _ hz

theorem AddMemoryCounters_priority_witness :
    tickOS.GetProcessMemoryInfo 0 = (some tickMemory, 1)
      ∧ (AddMemoryCounters tickOS 5 0).1 = Add 5 (bytesLE 8 5320704) 8 :=
  ⟨rfl, (AddMemoryCounters_priority tickOS 5 0 1 tickMemory rfl).2.1
    [(0, 4), (0, 8)] (5320704, 8)
    [(98304, 8), (0, 8), (6144, 8), (6000, 8), (1048576, 8), (1050000, 8)]
    rfl (by decide) (by decide)⟩

/-- C9. IoCounters per-field mixing: when the I/O query succeeds, AddIoCounters is the fold
over the six 64-bit fields in declaration order in which each non-zero field `v` maps the
running state `s` to `Add s` of the 8 raw bytes of `v` and each zero field leaves `s` as it
is; every non-zero field contributes. -/
theorem AddIoCounters_fold {W : Type} (os : Win32 W) (value : Nat) (w w1 : W)
    (c : IO_COUNTERS) (hq : os.GetProcessIoCounters w = (some c, w1)) :
    AddIoCounters os value w = (mixNonZeroFields value (ioFields c), w1) := by
  unfold AddIoCounters mixNonZeroFields ioFields
  rw [hq]
  simp only [List.foldl_cons, List.foldl_nil]

theorem AddIoCounters_fold_witness :
    tickOS.GetProcessIoCounters 3 = (some (tickIo 3), 4)
      ∧ AddIoCounters tickOS 9 3 = (mixNonZeroFields 9 (ioFields (tickIo 3)), 4) :=
  ⟨rfl, AddIoCounters_fold tickOS 9 3 4 (tickIo 3) rfl⟩

/-- C10. CycleTime source selection: the state returned by AddCycleTime is `Add` of the 8 raw
bytes of the process cycle count if `process` is true and the process-level query succeeds,
otherwise `Add` of the 8 raw bytes of the thread cycle count if the thread-level query
succeeds, otherwise the state itself (the thread-level query being made on the world left by
the process-level one when that one was made). With `process = false` the process-level
query has no effect on the outcome, and with `process = true` a failed process-level query
falls back to the thread-level count. -/
theorem AddCycleTime_selection {W : Type} (os : Win32 W) (value : Nat) (process : Bool)
    (w : W) :
    (AddCycleTime os value process w).1
        = cycleTimeSpec value process (os.QueryProcessCycleTime w).1
            (os.QueryThreadCycleTime
              (if process then (os.QueryProcessCycleTime w).2 else w)).1
      ∧ (∀ q : W → Option Nat × W,
          AddCycleTime { os with QueryProcessCycleTime := q } value false w
            = AddCycleTime os value false w)
      ∧ ((os.QueryProcessCycleTime w).1 = none →
          AddCycleTime os value true w
            = AddCycleTime os value false (os.QueryProcessCycleTime w).2) := by
  refine ⟨?_, ?_, ?_⟩
  · unfold AddCycleTime cycleTimeSpec
    cases process
    · simp only [Bool.false_eq_true, if_false]
      rcases os.QueryThreadCycleTime w with ⟨_ | c, w2⟩ <;> rfl
    · simp only [if_true]
      rcases os.QueryProcessCycleTime w with ⟨_ | c, w1⟩
      · simp only
        rcases os.QueryThreadCycleTime w1 with ⟨_ | c, w2⟩ <;> rfl
      · rfl
  · intro q
    rfl
  · intro hnone
    unfold AddCycleTime
    rcases hp : os.QueryProcessCycleTime w with ⟨_ | c, w1⟩
    · rfl
    · rw [hp] at hnone
      cases hnone

/-! ## Samplers along a quiet call -/

theorem AddTimeStamp_quietOn {W : Type} (os : Win32 W) (S : W → Prop) (h : QuietOn os S)
    (value : Nat) (w : W) (hw : S w) :
    (AddTimeStamp os value w).1 = value ∧ S (AddTimeStamp os value w).2 := by
  obtain ⟨⟨h1, h2, -⟩, hS1, -⟩ := h w hw
  obtain ⟨⟨-, -, h3, -⟩, -, hS2, -⟩ := h _ hS1
  refine ⟨?_, hS2⟩
  simp only [AddTimeStamp, FILETIME.bytes, h1, h2, h3]
  rw [Add_of_all_zero _ (bytesLE 4 0 ++ bytesLE 4 0) 8, Add_of_all_zero _ _ 8 (bytesLE_zero 8)]
  intro b hb
  rcases List.mem_append.1 hb with hb | hb <;> exact bytesLE_zero 4 b hb

theorem AddIoCounters_quietOn {W : Type} (os : Win32 W) (S : W → Prop) (h : QuietOn os S)
    (value : Nat) (w : W) (hw : S w) :
    (AddIoCounters os value w).1 = value ∧ S (AddIoCounters os value w).2 := by
  obtain ⟨⟨-, -, -, h4, -⟩, -, -, hS, -⟩ := h w hw
  unfold AddIoCounters
  rcases hq : os.GetProcessIoCounters w with ⟨_ | c, w1⟩
  · rw [hq] at hS
    exact ⟨rfl, hS⟩
  · rw [hq] at hS
    have hz := h4 c (by rw [hq])
    simp only [ioFields, List.mem_cons, List.mem_singleton, forall_eq_or_imp, forall_eq] at hz
    obtain ⟨z1, z2, z3, z4, z5, z6, -⟩ := hz
    simp only [z1, z2, z3, z4, z5, z6, ne_eq, not_true_eq_false, if_false]
    exact ⟨trivial, hS⟩

theorem AddMemoryCounters_quietOn {W : Type} (os : Win32 W) (S : W → Prop)
    (h : QuietOn os S) (value : Nat) (w : W) (hw : S w) :
    (AddMemoryCounters os value w).1 = value ∧ S (AddMemoryCounters os value w).2 := by
  obtain ⟨⟨-, -, -, -, h5, -⟩, -, -, -, hS, -⟩ := h w hw
  unfold AddMemoryCounters
  rcases hq : os.GetProcessMemoryInfo w with ⟨_ | m, w1⟩
  · rw [hq] at hS
    exact ⟨rfl, hS⟩
  · rw [hq] at hS
    have hz := h5 m (by rw [hq])
    simp only [memoryFields, List.mem_cons, List.mem_singleton, forall_eq_or_imp, forall_eq]
      at hz
    obtain ⟨z1, z2, z3, z4, z5, z6, z7, z8, z9, -⟩ := hz
    simp only [z1, z2, z3, z4, z5, z6, z7, z8, z9, ne_eq, not_true_eq_false, if_false]
    exact ⟨trivial, hS⟩

theorem AddCycleTime_thread_quietOn {W : Type} (os : Win32 W) (S : W → Prop)
    (h : QuietOn os S) (value : Nat) (w : W) (hw : S w) :
    (AddCycleTime os value false w).1 = value ∧ S (AddCycleTime os value false w).2 := by
  obtain ⟨⟨-, -, -, -, -, h6, -⟩, -, -, -, -, hS, -⟩ := h w hw
  unfold AddCycleTime
  simp only [Bool.false_eq_true, if_false]
  rcases hq : os.QueryThreadCycleTime w with ⟨_ | c, w1⟩
  · rw [hq] at hS
    exact ⟨rfl, hS⟩
  · rw [hq] at hS
    have hz := h6 c (by rw [hq])
    subst hz
    exact ⟨Add_of_all_zero _ _ 8 (bytesLE_zero 8), hS⟩

theorem AddCursorPosition_quietOn {W : Type} (os : Win32 W) (S : W → Prop)
    (h : QuietOn os S) (value : Nat) (w : W) (hw : S w) :
    (AddCursorPosition os value w).1 = value ∧ S (AddCursorPosition os value w).2 := by
  obtain ⟨⟨-, -, -, -, -, -, h7⟩, -, -, -, -, -, hS⟩ := h w hw
  unfold AddCursorPosition
  rcases hq : os.GetCursorPos w with ⟨_ | p, w1⟩
  · rw [hq] at hS
    exact ⟨rfl, hS⟩
  · rw [hq] at hS
    obtain ⟨hx, hy⟩ := h7 p (by rw [hq])
    refine ⟨?_, hS⟩
    simp only [POINT.bytes, hx, hy]
    apply Add_of_all_zero
    intro b hb
    rcases List.mem_append.1 hb with hb | hb <;> exact bytesLE_zero 4 b hb

theorem initRound_quietOn {W : Type} (os : Win32 W) (S : W → Prop) (h : QuietOn os S)
    (p : Nat × W) (hp : S p.2) : (initRound os p).1 = p.1 ∧ S (initRound os p).2 := by
  obtain ⟨a1, a2⟩ := AddCycleTime_thread_quietOn os S h p.1 p.2 hp
  obtain ⟨b1, b2⟩ := AddTimeStamp_quietOn os S h (AddCycleTime os p.1 false p.2).1 _ a2
  unfold initRound
  simp only
  exact ⟨b1.trans a1, b2⟩

theorem iterate_initRound_quietOn {W : Type} (os : Win32 W) (S : W → Prop)
    (h : QuietOn os S) (n : Nat) (p : Nat × W) (hp : S p.2) :
    ((initRound os)^[n] p).1 = p.1 ∧ S ((initRound os)^[n] p).2 := by
  induction n with
  | zero => exact ⟨rfl, hp⟩
  | succ n ih =>
    rw [Function.iterate_succ_apply']
    obtain ⟨c1, c2⟩ := initRound_quietOn os S h _ ih.2
    exact ⟨c1.trans ih.1, c2⟩

theorem Init_quietOn {W : Type} (os : Win32 W) (S : W → Prop) (h : QuietOn os S)
    (value : Nat) (w : W) (hw : S w) :
    (Init os value w).1 = value ∧ S (Init os value w).2 := by
  obtain ⟨a1, a2⟩ := AddMemoryCounters_quietOn os S h value w hw
  obtain ⟨b1, b2⟩ := AddIoCounters_quietOn os S h (AddMemoryCounters os value w).1 _ a2
  obtain ⟨c1, c2⟩ := AddCursorPosition_quietOn os S h
    (AddIoCounters os (AddMemoryCounters os value w).1 (AddMemoryCounters os value w).2).1 _ b2
  rw [Init_eq_iterate]
  obtain ⟨d1, d2⟩ := iterate_initRound_quietOn os S h 32 _ c2
  exact ⟨d1.trans (c1.trans (b1.trans a1)), d2⟩

theorem nextPath_quietOn {W : Type} (os : Win32 W) (S : W → Prop) (h : QuietOn os S)
    (p : Nat × W) (hp : S p.2) : (nextPath os p).1 = p.1 ∧ S (nextPath os p).2 := by
  obtain ⟨a1, a2⟩ := AddIoCounters_quietOn os S h p.1 p.2 hp
  obtain ⟨b1, b2⟩ := AddCycleTime_thread_quietOn os S h (AddIoCounters os p.1 p.2).1 _ a2
  obtain ⟨c1, c2⟩ := AddTimeStamp_quietOn os S h
    (AddCycleTime os (AddIoCounters os p.1 p.2).1 false (AddIoCounters os p.1 p.2).2).1 _ b2
  unfold nextPath
  simp only
  exact ⟨c1.trans (b1.trans a1), c2⟩

theorem Next_quietOn {W : Type} (os : Win32 W) (S : W → Prop) (h : QuietOn os S)
    (value : Nat) (w : W) (hw : S w) :
    (Next os value w).stored = value ∧ (Next os value w).returned = value := by
  have key : (nextPath os (if value = 0 then Init os value w else (value, w))).1 = value := by
    by_cases hv : value = 0
    · rw [if_pos hv]
      obtain ⟨a1, a2⟩ := Init_quietOn os S h value w hw
      exact (nextPath_quietOn os S h _ a2).1.trans a1
    · rw [if_neg hv]
      exact (nextPath_quietOn os S h (value, w) hw).1
  exact ⟨key, key⟩

theorem silentOS_quietOn : QuietOn silentOS (fun _ => True) := by
  intro w _
  simp [QuietAt, silentOS]

/-! ## Claims on failing and silent queries -/

/-- C11. Fail-open samplers: AddIoCounters, AddMemoryCounters, AddCursorPosition and
AddCycleTime (with the flag false: the thread-level query; with the flag true: the
process-level query and then the thread-level one) return the state they were given when
every query they consult reports failure, for every state. -/
theorem samplers_fail_open {W : Type} (os : Win32 W) (value : Nat) (w : W) :
    ((os.GetProcessIoCounters w).1 = none → (AddIoCounters os value w).1 = value)
      ∧ ((os.GetProcessMemoryInfo w).1 = none → (AddMemoryCounters os value w).1 = value)
      ∧ ((os.GetCursorPos w).1 = none → (AddCursorPosition os value w).1 = value)
      ∧ ((os.QueryThreadCycleTime w).1 = none → (AddCycleTime os value false w).1 = value)
      ∧ ((os.QueryProcessCycleTime w).1 = none →
          (os.QueryThreadCycleTime (os.QueryProcessCycleTime w).2).1 = none →
          (AddCycleTime os value true w).1 = value) := by
  refine ⟨?_, ?_, ?_, ?_, ?_⟩
  · intro hq
    unfold AddIoCounters
    rcases hr : os.GetProcessIoCounters w with ⟨_ | c, w1⟩
    · rfl
    · rw [hr] at hq
      cases hq
  · intro hq
    unfold AddMemoryCounters
    rcases hr : os.GetProcessMemoryInfo w with ⟨_ | m, w1⟩
    · rfl
    · rw [hr] at hq
      cases hq
  · intro hq
    unfold AddCursorPosition
    rcases hr : os.GetCursorPos w with ⟨_ | p, w1⟩
    · rfl
    · rw [hr] at hq
      cases hq
  · intro hq
    unfold AddCycleTime
    simp only [Bool.false_eq_true, if_false]
    rcases hr : os.QueryThreadCycleTime w with ⟨_ | c, w1⟩
    · rfl
    · rw [hr] at hq
      cases hq
  · intro hp hq
    unfold AddCycleTime
    simp only [if_true]
    rcases hr : os.QueryProcessCycleTime w with ⟨_ | c, w1⟩
    · rw [hr] at hq
      simp only
      rcases ht : os.QueryThreadCycleTime w1 with ⟨_ | c, w2⟩
      · rfl
      · rw [ht] at hq
        cases hq
    · rw [hr] at hp
      cases hp

theorem samplers_fail_open_witness :
    (AddIoCounters silentOS 0x1234567890ABCDEF ()).1 = 0x1234567890ABCDEF
      ∧ (AddMemoryCounters silentOS 0x1234567890ABCDEF ()).1 = 0x1234567890ABCDEF
      ∧ (AddCursorPosition silentOS 0x1234567890ABCDEF ()).1 = 0x1234567890ABCDEF
      ∧ (AddCycleTime silentOS 0x1234567890ABCDEF false ()).1 = 0x1234567890ABCDEF
      ∧ (AddCycleTime silentOS 0x1234567890ABCDEF true ()).1 = 0x1234567890ABCDEF :=
  ⟨(samplers_fail_open silentOS 0x1234567890ABCDEF ()).1 rfl,
   (samplers_fail_open silentOS 0x1234567890ABCDEF ()).2.1 rfl,
   (samplers_fail_open silentOS 0x1234567890ABCDEF ()).2.2.1 rfl,
   (samplers_fail_open silentOS 0x1234567890ABCDEF ()).2.2.2.1 rfl,
   (samplers_fail_open silentOS 0x1234567890ABCDEF ()).2.2.2.2 rfl rfl⟩

/-- C12. Degenerate case: when every query made during a call fails or reads zero (the
worlds `S` the call goes through are quiet), `Init` returns the state `s` it was given and
`Next` stores and returns `s`, for every `s`, zero included; so two such calls on the same
state, from whatever worlds of `S`, produce the same output. -/
theorem degenerate_call {W : Type} (os : Win32 W) (S : W → Prop) (h : QuietOn os S)
    (s : Nat) (w1 w2 : W) (h1 : S w1) (h2 : S w2) :
    (Init os s w1).1 = s
      ∧ (Next os s w1).stored = s
      ∧ (Next os s w1).returned = s
      ∧ (Next os s w1).returned = (Next os s w2).returned := by
  obtain ⟨a1, a2⟩ := Next_quietOn os S h s w1 h1
  obtain ⟨-, b2⟩ := Next_quietOn os S h s w2 h2
  exact ⟨(Init_quietOn os S h s w1 h1).1, a1, a2, a2.trans b2.symm⟩

theorem degenerate_call_witness :
    QuietOn silentOS (fun _ => True)
      ∧ (Init silentOS 0 ()).1 = 0
      ∧ (Next silentOS 0xFEEDFACE ()).stored = 0xFEEDFACE :=
  ⟨silentOS_quietOn,
   (degenerate_call silentOS (fun _ => True) silentOS_quietOn 0 () () trivial trivial).1,
   (degenerate_call silentOS (fun _ => True) silentOS_quietOn 0xFEEDFACE () ()
      trivial trivial).2.1⟩

/-- C13. TimeStamp mixes both values unconditionally: the state returned by AddTimeStamp is
`Add` of the 8 raw bytes of the performance counter buffer applied to `Add` of the 8 raw
bytes of the `FILETIME`, and the `BOOL` returned by `QueryPerformanceCounter` has no
influence (`GetSystemTimeAsFileTime` returns nothing): no branch depends on a query
succeeding. -/
theorem AddTimeStamp_unconditional {W : Type} (os : Win32 W) (value : Nat) (w : W) :
    (AddTimeStamp os value w).1
        = Add (Add value (os.GetSystemTimeAsFileTime w).1.bytes 8)
            (bytesLE 8 (os.QueryPerformanceCounter (os.GetSystemTimeAsFileTime w).2).1.2) 8
      ∧ (∀ g : Bool → Bool,
          AddTimeStamp
              { os with
                QueryPerformanceCounter := fun u =>
                  ((g (os.QueryPerformanceCounter u).1.1, (os.QueryPerformanceCounter u).1.2),
                    (os.QueryPerformanceCounter u).2) } value w
            = AddTimeStamp os value w) :=
  ⟨rfl, fun _ => rfl⟩

/-! ## Algebra of `Add` -/

theorem pack_lt (lanes : Nat × Nat) (h : Lanes32 lanes) : pack lanes < 2 ^ 64 := by
  obtain ⟨h1, h2⟩ := h
  unfold pack
  omega

theorem Add_lt (value : Nat) (buffer : List Nat) (n : Nat) (h : value < 2 ^ 64) :
    Add value buffer n < 2 ^ 64 := by
  obtain ⟨h1, h2⟩ := Add_lanes value buffer n h
  rw [h1]
  exact pack_lt _ h2

theorem specByte_parity (lanes : Nat × Nat) (i j b : Nat) (h : i % 2 = j % 2) :
    specByte lanes i b = specByte lanes j b := by
  unfold specByte
  rw [h]

theorem specMix_parity (lanes : Nat × Nat) (i j : Nat) (xs : List Nat) (h : i % 2 = j % 2) :
    specMix lanes i xs = specMix lanes j xs := by
  induction xs generalizing lanes i j with
  | nil => simp only [specMix]
  | cons x xs ih =>
    simp only [specMix]
    rw [specByte_parity lanes i j x h]
    exact ih _ _ _ (by omega)

theorem Add_eq_specMix (value : Nat) (buffer : List Nat) (h : value < 2 ^ 64) :
    Add value buffer buffer.length = pack (specMix (lanesOf value) 0 buffer)
      ∧ Lanes32 (specMix (lanesOf value) 0 buffer) := by
  have := Add_lanes value buffer buffer.length h
  rwa [specFold_eq_specMix] at this

theorem Add_pack_specMix (lanes : Nat × Nat) (buffer : List Nat) (h : Lanes32 lanes) :
    Add (pack lanes) buffer buffer.length = pack (specMix lanes 0 buffer) := by
  rw [Add_pack buffer _ lanes h, specFold_eq_specMix]

theorem Add_append_even (value : Nat) (a b : List Nat) (h : value < 2 ^ 64)
    (ha : a.length % 2 = 0) :
    Add (Add value a a.length) b b.length = Add value (a ++ b) (a ++ b).length := by
  obtain ⟨e1, l1⟩ := Add_eq_specMix value a h
  obtain ⟨e2, -⟩ := Add_eq_specMix value (a ++ b) h
  rw [e1, e2, Add_pack_specMix _ b l1, specMix_append]
  rw [specMix_parity _ (0 + a.length) 0 b (by omega)]

theorem bytesLE_length (n v : Nat) : (bytesLE n v).length = n := by
  induction n generalizing v with
  | zero => rfl
  | succ n ih => simp only [bytesLE, List.length_cons, ih]

theorem Add_append_bytes (value n m : Nat) (a b : List Nat) (h : value < 2 ^ 64)
    (ha : a.length = n) (hb : b.length = m) (hn : n % 2 = 0) :
    Add (Add value a n) b m = Add value (a ++ b) (n + m) := by
  have := Add_append_even value a b h (by omega)
  rw [List.length_append, ha, hb] at this
  exact this

theorem Add_field (value v : Nat) :
    (if v ≠ 0 then Add value (bytesLE 8 v) 8 else value) = Add value (bytesLE 8 v) 8 := by
  by_cases hv : v = 0
  · subst hv
    rw [if_neg (by simp), Add_of_all_zero value _ 8 (bytesLE_zero 8)]
  · rw [if_pos hv]

theorem AddIoCounters_eq {W : Type} (os : Win32 W) (value : Nat) (w w1 : W)
    (c : IO_COUNTERS) (hq : os.GetProcessIoCounters w = (some c, w1)) :
    AddIoCounters os value w = (mixNonZeroFields value (ioFields c), w1) := by
  unfold AddIoCounters mixNonZeroFields ioFields
  rw [hq]
  simp only [List.foldl_cons, List.foldl_nil]

theorem mixNonZeroFields_six (value : Nat) (c : IO_COUNTERS) (h : value < 2 ^ 64) :
    mixNonZeroFields value (ioFields c) = Add value c.bytes 48 := by
  have l8 : ∀ v, (bytesLE 8 v).length = 8 := fun v => bytesLE_length 8 v
  unfold mixNonZeroFields ioFields IO_COUNTERS.bytes
  simp only [List.foldl_cons, List.foldl_nil, Add_field]
  have s1 := Add_lt value (bytesLE 8 c.ReadOperationCount) 8 h
  have s2 := Add_lt _ (bytesLE 8 c.WriteOperationCount) 8 s1
  have s3 := Add_lt _ (bytesLE 8 c.OtherOperationCount) 8 s2
  have s4 := Add_lt _ (bytesLE 8 c.ReadTransferCount) 8 s3
  rw [Add_append_bytes _ 8 8 _ _ s4 (l8 _) (l8 _) (by decide),
    Add_append_bytes _ 8 16 _ _ s3 (l8 _) (by simp only [List.length_append, l8]) (by decide),
    Add_append_bytes _ 8 24 _ _ s2 (l8 _) (by simp only [List.length_append, l8]) (by decide),
    Add_append_bytes _ 8 32 _ _ s1 (l8 _) (by simp only [List.length_append, l8]) (by decide),
    Add_append_bytes _ 8 40 _ _ h (l8 _) (by simp only [List.length_append, l8]) (by decide)]

/-! ## Invertibility of the lane update -/

theorem specLaneStep_inj (b x y : Nat) (hb : b < 2 ^ 32) (hx : x < 2 ^ 32) (hy : y < 2 ^ 32)
    (h : specLaneStep x b = specLaneStep y b) : x = y := by
  unfold specLaneStep at h
  have hm : ∀ z : Nat, z % 2 ^ 32 < 2 ^ 32 := fun z => Nat.mod_lt _ (by norm_num)
  have hu : (x + 0x9e3779b9) % 2 ^ 32 ^^^ b < 2 ^ 32 := Nat.xor_lt_two_pow (hm _) hb
  have hv : (y + 0x9e3779b9) % 2 ^ 32 ^^^ b < 2 ^ 32 := Nat.xor_lt_two_pow (hm _) hb
  have h1 : ((x + 0x9e3779b9) % 2 ^ 32 ^^^ b) * 0xFFFFFFED
      ≡ ((y + 0x9e3779b9) % 2 ^ 32 ^^^ b) * 0xFFFFFFED [MOD 2 ^ 32] :=
    Nat.ModEq.add_right_cancel' 0xFFFFFFC3 h
  have hg : Nat.gcd (2 ^ 32) 0xFFFFFFED = 1 := by norm_num
  have h2 := Nat.ModEq.cancel_right_of_coprime hg h1
  have h3 : (x + 0x9e3779b9) % 2 ^ 32 ^^^ b = (y + 0x9e3779b9) % 2 ^ 32 ^^^ b := by
    have := h2
    unfold Nat.ModEq at this
    rwa [Nat.mod_eq_of_lt hu, Nat.mod_eq_of_lt hv] at this
  have h4 : (x + 0x9e3779b9) % 2 ^ 32 = (y + 0x9e3779b9) % 2 ^ 32 := Nat.xor_left_inj.1 h3
  omega

theorem specByte_inj (i b : Nat) (l1 l2 : Nat × Nat) (hb : b < 2 ^ 32) (h1 : Lanes32 l1)
    (h2 : Lanes32 l2) (h : specByte l1 i b = specByte l2 i b) : l1 = l2 := by
  unfold specByte at h
  obtain ⟨x1, y1⟩ := l1
  obtain ⟨x2, y2⟩ := l2
  obtain ⟨hx1, hy1⟩ := h1
  obtain ⟨hx2, hy2⟩ := h2
  by_cases hz : b = 0
  · simpa only [hz, if_true] using h
  · simp only [hz, if_false] at h
    by_cases hk : i % 2 = 0
    · simp only [hk, if_true, Prod.mk.injEq] at h
      rw [specLaneStep_inj b x1 x2 hb hx1 hx2 h.1, h.2]
    · simp only [hk, if_false, Prod.mk.injEq] at h
      rw [specLaneStep_inj b y1 y2 hb hy1 hy2 h.2, h.1]

theorem specMix_lanes32 (lanes : Nat × Nat) (i : Nat) (xs : List Nat) (h : Lanes32 lanes) :
    Lanes32 (specMix lanes i xs) := by
  induction xs generalizing lanes i with
  | nil => simpa only [specMix] using h
  | cons x xs ih =>
    simp only [specMix]
    exact ih _ _ (specByte_lanes32 lanes i x h)

theorem specMix_inj (xs : List Nat) (hxs : ∀ b ∈ xs, b < 256) (i : Nat) (l1 l2 : Nat × Nat)
    (h1 : Lanes32 l1) (h2 : Lanes32 l2) (h : specMix l1 i xs = specMix l2 i xs) : l1 = l2 := by
  induction xs generalizing l1 l2 i with
  | nil => simpa only [specMix] using h
  | cons x xs ih =>
    simp only [specMix] at h
    have hx : x < 2 ^ 32 := by
      have := hxs x (List.mem_cons_self _ _)
      omega
    have := ih (fun b hb => hxs b (List.mem_cons_of_mem _ hb)) (i + 1) _ _
      (specByte_lanes32 l1 i x h1) (specByte_lanes32 l2 i x h2) h
    exact specByte_inj i x l1 l2 hx h1 h2 this

theorem pack_inj (l1 l2 : Nat × Nat) (h1 : Lanes32 l1) (h2 : Lanes32 l2)
    (h : pack l1 = pack l2) : l1 = l2 := by
  obtain ⟨x1, y1⟩ := l1
  obtain ⟨x2, y2⟩ := l2
  obtain ⟨hx1, hy1⟩ := h1
  obtain ⟨hx2, hy2⟩ := h2
  unfold pack at h
  simp only at h hx1 hx2 hy1 hy2
  have e1 : x1 = x2 := by omega
  have e2 : y1 = y2 := by omega
  rw [e1, e2]

theorem Add_injOn (buffer : List Nat) (hbuf : ∀ b ∈ buffer, b < 256) :
    Set.InjOn (fun s => Add s buffer buffer.length) (Set.Iio (2 ^ 64)) := by
  intro s1 hs1 s2 hs2 h
  simp only [Set.mem_Iio] at hs1 hs2
  simp only at h
  obtain ⟨e1, l1⟩ := Add_eq_specMix s1 buffer hs1
  obtain ⟨e2, l2⟩ := Add_eq_specMix s2 buffer hs2
  rw [e1, e2] at h
  have h3 := specMix_inj buffer hbuf 0 _ _ (lanesOf_lanes32 s1 hs1) (lanesOf_lanes32 s2 hs2)
    (pack_inj _ _ l1 l2 h)
  rw [← pack_lanesOf s1, ← pack_lanesOf s2, h3]

theorem Add_bijOn (buffer : List Nat) (hbuf : ∀ b ∈ buffer, b < 256) :
    Set.BijOn (fun s => Add s buffer buffer.length) (Set.Iio (2 ^ 64)) (Set.Iio (2 ^ 64)) := by
  have hm : Set.MapsTo (fun s => Add s buffer buffer.length) (Set.Iio (2 ^ 64))
      (Set.Iio (2 ^ 64)) := fun s hs => Add_lt s buffer _ hs
  exact ((Set.finite_Iio (2 ^ 64)).injOn_iff_bijOn_of_mapsTo hm).1 (Add_injOn buffer hbuf)

theorem specLaneStep_bijOn (b : Nat) (hb : b < 256) :
    Set.BijOn (fun x => specLaneStep x b) (Set.Iio (2 ^ 32)) (Set.Iio (2 ^ 32)) := by
  have hm : Set.MapsTo (fun x => specLaneStep x b) (Set.Iio (2 ^ 32)) (Set.Iio (2 ^ 32)) :=
    fun x _ => specLaneStep_lt x b
  refine ((Set.finite_Iio (2 ^ 32)).injOn_iff_bijOn_of_mapsTo hm).1 ?_
  intro x hx y hy h
  exact specLaneStep_inj b x y (by omega) hx hy h

/-! ## Claims on the algebra of `Add` -/

/-- C17. Mixing is invertible: for every fixed byte buffer the map `state -> Add(state,
buffer)` is a bijection of the 64-bit states onto themselves (so two distinct states never
mix to the same result under the same buffer), and for every byte the lane update is a
bijection of the 32-bit values onto themselves. -/
theorem Add_bijective (buffer : List Nat) (hbuf : ∀ b ∈ buffer, b < 256) :
    Set.BijOn (fun s => Add s buffer buffer.length) (Set.Iio (2 ^ 64)) (Set.Iio (2 ^ 64))
      ∧ (∀ s1 s2, s1 < 2 ^ 64 → s2 < 2 ^ 64 → s1 ≠ s2 →
          Add s1 buffer buffer.length ≠ Add s2 buffer buffer.length)
      ∧ (∀ b, b < 256 →
          Set.BijOn (fun x => specLaneStep x b) (Set.Iio (2 ^ 32)) (Set.Iio (2 ^ 32))) :=
  ⟨Add_bijOn buffer hbuf,
   fun _ _ h1 h2 hne h => hne (Add_injOn buffer hbuf h1 h2 h),
   specLaneStep_bijOn⟩

theorem Add_bijective_witness :
    (∀ b ∈ [17, 0, 255, 3, 96], b < 256)
      ∧ Set.BijOn (fun s => Add s [17, 0, 255, 3, 96] 5) (Set.Iio (2 ^ 64))
          (Set.Iio (2 ^ 64)) :=
  ⟨by decide, (Add_bijective [17, 0, 255, 3, 96] (by decide)).1⟩

/-- C18. Concatenation law: for every 64-bit state and all buffers `a` and `b` with `a` of
even length, mixing `a` and then `b` is mixing `a ++ b`; for some state and buffers with `a`
of odd length the two differ. -/
theorem Add_concatenation :
    (∀ state a b, state < 2 ^ 64 → a.length % 2 = 0 →
        Add (Add state a a.length) b b.length = Add state (a ++ b) (a ++ b).length)
      ∧ (∃ state a b, state < 2 ^ 64 ∧ a.length % 2 = 1
          ∧ Add (Add state a a.length) b b.length ≠ Add state (a ++ b) (a ++ b).length) :=
  ⟨fun state a b h ha => Add_append_even state a b h ha,
   ⟨0, [1], [1], by decide, by decide, by decide⟩⟩

/-- C19. The per-field non-zero test of AddIoCounters is observationally redundant: when the
I/O query succeeds, for every 64-bit state and every six field values, AddIoCounters returns
`Add` of the 48 raw bytes of the six 64-bit fields in declaration order. -/
theorem AddIoCounters_whole_structure {W : Type} (os : Win32 W) (value : Nat) (w w1 : W)
    (c : IO_COUNTERS) (hv : value < 2 ^ 64) (hq : os.GetProcessIoCounters w = (some c, w1)) :
    AddIoCounters os value w = (Add value c.bytes 48, w1) := by
  rw [AddIoCounters_eq os value w w1 c hq, mixNonZeroFields_six value c hv]

theorem AddIoCounters_whole_structure_witness :
    (9 : Nat) < 2 ^ 64 ∧ tickOS.GetProcessIoCounters 3 = (some (tickIo 3), 4)
      ∧ AddIoCounters tickOS 9 3 = (Add 9 (tickIo 3).bytes 48, 4) :=
  ⟨by decide, rfl, AddIoCounters_whole_structure tickOS 9 3 4 (tickIo 3) (by decide) rfl⟩

/-! ## The frequency table -/

theorem readLoop_eq_foldl (file : List Nat) (frequencyList : List Nat) :
    readLoop file frequencyList = file.foldl countByte frequencyList := by
  generalize hn : file.length = n
  induction n using Nat.strong_induction_on generalizing file frequencyList with
  | _ n ih =>
    unfold readLoop
    by_cases h : 0 < (List.take 0x4000 file).length
    · rw [dif_pos h]
      have hlt : (List.drop 0x4000 file).length < n := by
        simp only [List.length_take, List.length_drop] at h ⊢
        omega
      rw [ih _ hlt _ _ rfl, ← List.foldl_append, List.take_append_drop]
    · rw [dif_neg h]
      have hnil : file = [] := by
        simp only [List.length_take] at h
        have : file.length = 0 := by omega
        exact List.length_eq_zero.1 this
      rw [hnil]
      rfl

theorem set_map_range (n x y : Nat) (t : Nat → Nat) :
    ((List.range n).map t).set x y = (List.range n).map (fun v => if v = x then y else t v) := by
  apply List.ext_getElem
  · simp only [List.length_set, List.length_map]
  · intro i h1 h2
    simp only [List.getElem_set, List.getElem_map, List.getElem_range]
    by_cases hx : x = i
    · simp only [hx, if_true]
    · have hx2 : ¬ i = x := fun e => hx e.symm
      simp only [hx, hx2, if_false]

theorem getD_map_range (n x : Nat) (t : Nat → Nat) (hx : x < n) :
    ((List.range n).map t).getD x 0 = t x := by
  rw [List.getD_eq_getElem _ _ (by simp only [List.length_map, List.length_range]; exact hx)]
  simp only [List.getElem_map, List.getElem_range]

theorem foldl_countByte (file : List Nat) (t : Nat → Nat) (ht : ∀ v, t v < 2 ^ 32) :
    file.foldl countByte ((List.range 256).map t)
      = (List.range 256).map (fun v => (t v + file.count v) % 2 ^ 32) := by
  induction file generalizing t with
  | nil =>
    simp only [List.foldl_nil, List.count_nil, Nat.add_zero]
    exact List.map_congr_left (fun v _ => (Nat.mod_eq_of_lt (ht v)).symm)
  | cons x xs ih =>
    have hstep : countByte ((List.range 256).map t) x
        = (List.range 256).map
            (fun v => if v = x then (((List.range 256).map t).getD x 0 + 1) % 2 ^ 32
              else t v) := by
      unfold countByte
      rw [set_map_range]
    rw [List.foldl_cons, hstep]
    have h2 : ∀ u, (fun v => if v = x then (((List.range 256).map t).getD x 0 + 1) % 2 ^ 32
        else t v) u < 2 ^ 32 := by
      intro u
      have := ht u
      simp only
      split_ifs <;> omega
    rw [ih _ h2]
    apply List.map_congr_left
    intro v hv
    have hv256 : v < 256 := List.mem_range.1 hv
    rw [List.count_cons]
    by_cases hx : v = x
    · subst hx
      simp only [if_true, beq_self_eq_true, getD_map_range 256 v t hv256]
      omega
    · have hx2 : (x == v) = false := by
        simp only [beq_eq_false_iff_ne, ne_eq]
        exact fun e => hx e.symm
      simp only [hx, if_false, hx2, Bool.false_eq_true, Nat.add_zero]

theorem readLoop_table (file : List Nat) :
    readLoop file (List.replicate 256 0) = countTable file := by
  have h0 : List.replicate 256 0 = (List.range 256).map (fun _ => 0) := by
    rw [List.map_const', List.length_range]
  rw [readLoop_eq_foldl, h0, foldl_countByte file _ (fun _ => by norm_num)]
  unfold countTable
  simp only [Nat.zero_add]

theorem foldl_entropyStep_of_zero {F : Type} (D : DoubleOps F) (fileSize : Nat)
    (l : List Nat) (h : ∀ f ∈ l, f = 0) (entropy : F) :
    l.foldl (entropyStep D fileSize) entropy = entropy := by
  induction l generalizing entropy with
  | nil => rfl
  | cons x xs ih =>
    rw [List.foldl_cons, ih (fun v hv => h v (List.mem_cons_of_mem _ hv))]
    unfold entropyStep
    simp only [h x (List.mem_cons_self _ _), gt_iff_lt, Nat.lt_irrefl, if_false]

theorem CalculateEntropy_of_wrapped {F : Type} (D : DoubleOps F) (sizeof_size_t : Nat)
    (file : List Nat) (h : ∀ v, v < 256 → file.count v % 2 ^ 32 = 0) :
    CalculateEntropy D sizeof_size_t file = D.mul D.zero D.negOne := by
  unfold CalculateEntropy
  simp only
  rw [readLoop_table, foldl_entropyStep_of_zero]
  intro f hf
  unfold countTable at hf
  obtain ⟨v, hv, rfl⟩ := List.mem_map.1 hf
  exact h v (List.mem_range.1 hv)

theorem count_cycles (k v : Nat) (hv : v < 256) : (cycles k).count v = k := by
  induction k with
  | zero => rfl
  | succ k ih =>
    have h1 : (List.range 256).count v = 1 :=
      List.count_eq_one_of_mem (List.nodup_range 256) (List.mem_range.2 hv)
    simp only [cycles, List.count_append, ih, h1]
    omega

theorem length_cycles (k : Nat) : (cycles k).length = 256 * k := by
  induction k with
  | zero => rfl
  | succ k ih =>
    simp only [cycles, List.length_append, List.length_range, ih]
    omega

/-! ## Claims on `CalculateEntropy` -/

/-- C14. Empty stream: on a zero-length stream `CalculateEntropy` evaluates neither the
division by the total nor `log2`; what it prints is the product of the initial `0.0` by
`-1`, whatever the arithmetic, which over the reals is 0. -/
theorem CalculateEntropy_empty {F : Type} (D : DoubleOps F) (sizeof_size_t : Nat) :
    CalculateEntropy D sizeof_size_t [] = D.mul D.zero D.negOne
      ∧ (∀ (div : F → F → F) (log2 : F → F),
          CalculateEntropy { D with div := div, log2 := log2 } sizeof_size_t []
            = CalculateEntropy D sizeof_size_t [])
      ∧ CalculateEntropy realOps sizeof_size_t [] = 0 := by
  have h : ∀ v, v < 256 → ([] : List Nat).count v % 2 ^ 32 = 0 := fun v _ => rfl
  refine ⟨CalculateEntropy_of_wrapped D _ [] h, ?_, ?_⟩
  · intro div log2
    rw [CalculateEntropy_of_wrapped D _ [] h, CalculateEntropy_of_wrapped _ _ [] h]
  · rw [CalculateEntropy_of_wrapped realOps _ [] h]
    simp only [realOps, zero_mul]

/-! ## The entropy sum over the reals -/

theorem foldl_entropyStep_real (fileSize : Nat) (l : List Nat) (entropy : ℝ) :
    l.foldl (entropyStep realOps fileSize) entropy
      = entropy + (l.map (entropyTerm fileSize)).sum := by
  induction l generalizing entropy with
  | nil => simp only [List.foldl_nil, List.map_nil, List.sum_nil, add_zero]
  | cons x xs ih =>
    rw [List.foldl_cons, ih, List.map_cons, List.sum_cons, ← add_assoc]
    congr 1
    unfold entropyStep entropyTerm realOps
    by_cases hf : x > 0
    · simp only [hf, if_true]
    · simp only [hf, if_false, add_zero]

theorem CalculateEntropy_real (sizeof_size_t : Nat) (file : List Nat) :
    CalculateEntropy realOps sizeof_size_t file
      = -((List.range 256).map
          (fun v => entropyTerm (file.length % 2 ^ (8 * sizeof_size_t))
            (file.count v % 2 ^ 32))).sum := by
  unfold CalculateEntropy
  simp only
  rw [readLoop_table, foldl_entropyStep_real]
  unfold countTable
  rw [List.map_map]
  simp only [realOps, zero_add, mul_neg, mul_one]
  rfl

theorem sum_map_zero {M : Type} [AddCommMonoid M] (l : List Nat) (g : Nat → M)
    (h : ∀ v ∈ l, g v = 0) : (l.map g).sum = 0 := by
  induction l with
  | nil => rfl
  | cons x xs ih =>
    rw [List.map_cons, List.sum_cons, h x (List.mem_cons_self _ _),
      ih (fun v hv => h v (List.mem_cons_of_mem _ hv)), add_zero]

theorem sum_map_single {M : Type} [AddCommMonoid M] (n b : Nat) (g : Nat → M) (hb : b < n)
    (h : ∀ v, v < n → v ≠ b → g v = 0) : ((List.range n).map g).sum = g b := by
  induction n with
  | zero => omega
  | succ n ih =>
    rw [List.range_succ, List.map_append, List.sum_append, List.map_singleton,
      List.sum_singleton]
    by_cases hn : b = n
    · subst hn
      rw [sum_map_zero _ g (fun v hv => h v (by have := List.mem_range.1 hv; omega)
        (by have := List.mem_range.1 hv; omega)), zero_add]
    · rw [ih (by omega) (fun v hv hne => h v (by omega) hne), h n (by omega) (fun e => hn e.symm),
        add_zero]

theorem count_of_constant (file : List Nat) (b : Nat) (h : ∀ x ∈ file, x = b) (v : Nat) :
    file.count v = if v = b then file.length else 0 := by
  rw [List.eq_replicate_of_mem h, List.count_replicate, List.length_replicate]
  by_cases hv : v = b
  · subst hv
    simp only [beq_self_eq_true, if_true]
  · have : (b == v) = false := by
      simp only [beq_eq_false_iff_ne, ne_eq]
      exact fun e => hv e.symm
    simp only [this, Bool.false_eq_true, if_false, hv]

theorem logb_two_inv_256 : Real.logb 2 ((1 : ℝ) / 256) = -8 := by
  have h : ((1 : ℝ) / 256) = ((2 : ℝ) ^ 8)⁻¹ := by norm_num
  rw [h, Real.logb_inv, Real.logb_pow, Real.logb_self_eq_one (by norm_num)]
  norm_num

theorem length_eq_sum_count (n : Nat) (file : List Nat) (h : ∀ x ∈ file, x < n) :
    file.length = ((List.range n).map (fun v => file.count v)).sum := by
  induction file with
  | nil =>
    rw [sum_map_zero (List.range n) (fun v => List.count v ([] : List Nat)) (fun v _ => rfl)]
    rfl
  | cons x xs ih =>
    have h1 : ((List.range n).map (fun v => if (x == v) = true then 1 else 0)).sum = 1 := by
      rw [sum_map_single n x _ (h x (List.mem_cons_self _ _))]
      · simp only [beq_self_eq_true, if_true]
      · intro v _ hne
        have : (x == v) = false := by
          simp only [beq_eq_false_iff_ne, ne_eq]
          exact fun e => hne e.symm
        simp only [this, Bool.false_eq_true, if_false]
    simp only [List.count_cons, List.length_cons]
    rw [List.sum_map_add, h1, ← ih (fun y hy => h y (List.mem_cons_of_mem _ hy))]

theorem CalculateEntropy_constant (sizeof_size_t : Nat) (file : List Nat) (b : Nat)
    (h : ∀ x ∈ file, x = b) (h32 : file.length < 2 ^ 32)
    (hsz : file.length < 2 ^ (8 * sizeof_size_t)) :
    CalculateEntropy realOps sizeof_size_t file = 0 := by
  rw [CalculateEntropy_real, sum_map_zero, neg_zero]
  intro v _
  unfold entropyTerm
  rw [count_of_constant file b h v, Nat.mod_eq_of_lt hsz]
  by_cases hv : v = b
  · simp only [hv, if_true, Nat.mod_eq_of_lt h32]
    by_cases hpos : file.length > 0
    · have hne : (file.length : ℝ) ≠ 0 := by
        have : file.length ≠ 0 := by omega
        exact_mod_cast this
      simp only [hpos, if_true, div_self hne, Real.logb_one, mul_zero]
    · simp only [hpos, if_false]
  · simp only [hv, if_false, Nat.zero_mod, gt_iff_lt, Nat.lt_irrefl]

theorem CalculateEntropy_uniform (sizeof_size_t : Nat) (file : List Nat) (k : Nat)
    (hbytes : ∀ x ∈ file, x < 256) (hcount : ∀ v, v < 256 → file.count v = k) (hk : 0 < k)
    (hk32 : k < 2 ^ 32) (hsz : 256 * k < 2 ^ (8 * sizeof_size_t)) :
    CalculateEntropy realOps sizeof_size_t file = 8 := by
  have hlen : file.length = 256 * k := by
    rw [length_eq_sum_count 256 file hbytes,
      List.map_congr_left (fun v hv => hcount v (List.mem_range.1 hv)), List.map_const',
      List.sum_replicate, List.length_range, smul_eq_mul]
  have hterm : ∀ v ∈ List.range 256,
      entropyTerm (file.length % 2 ^ (8 * sizeof_size_t)) (file.count v % 2 ^ 32)
        = -(1 / 32 : ℝ) := by
    intro v hv
    unfold entropyTerm
    simp only [hcount v (List.mem_range.1 hv), Nat.mod_eq_of_lt hk32, hlen,
      Nat.mod_eq_of_lt hsz, gt_iff_lt, hk, if_true]
    have hk0 : (k : ℝ) ≠ 0 := by
      have : k ≠ 0 := by omega
      exact_mod_cast this
    have hq : (k : ℝ) / ((256 * k : ℕ) : ℝ) = 1 / 256 := by
      push_cast
      field_simp
      ring
    rw [hq, logb_two_inv_256]
    norm_num
  rw [CalculateEntropy_real, List.map_congr_left hterm, List.map_const', List.sum_replicate,
    List.length_range]
  norm_num

theorem CalculateEntropy_replicate_wrapped :
    CalculateEntropy realOps 8 (List.replicate (2 ^ 32 + 1) 65)
      = -(1 / (2 ^ 32 + 1) * Real.logb 2 (1 / (2 ^ 32 + 1))) := by
  have hterm : entropyTerm ((2 ^ 32 + 1) % 2 ^ (8 * 8))
      ((List.replicate (2 ^ 32 + 1) 65).count 65 % 2 ^ 32)
        = 1 / (2 ^ 32 + 1) * Real.logb 2 (1 / (2 ^ 32 + 1)) := by
    unfold entropyTerm
    simp only [List.count_replicate_self]
    norm_num
  rw [CalculateEntropy_real, List.length_replicate,
    sum_map_single 256 65
      (fun v => entropyTerm ((2 ^ 32 + 1) % 2 ^ (8 * 8))
        ((List.replicate (2 ^ 32 + 1) 65).count v % 2 ^ 32)) (by norm_num)]
  · exact congrArg Neg.neg hterm
  · intro v _ hne
    unfold entropyTerm
    have hc : (List.replicate (2 ^ 32 + 1) 65).count v = 0 := by
      rw [List.count_replicate]
      have : ((65 : Nat) == v) = false := by
        simp only [beq_eq_false_iff_ne, ne_eq]
        exact fun e => hne e.symm
      simp only [this, Bool.false_eq_true, if_false]
    simp only [hc, Nat.zero_mod, gt_iff_lt, Nat.lt_irrefl, if_false]

/-! ## Claims on the entropy of long streams -/

/-- C15 on the code, at a stream longer than the 32-bit counters can count. On a 64-bit
target (`sizeof(size_t) = 8`) and a stream of `2^32 + 1` bytes all equal to 65, the counter
of the byte has wrapped to 1 while the total is `2^32 + 1`, and the entropy computed is
`-(p * log2 p)` with `p = 1 / (2^32 + 1)`, which is positive, not 0. -/
theorem CalculateEntropy_constant_overflow :
    List.replicate (2 ^ 32 + 1) 65 ≠ []
      ∧ (∀ x ∈ List.replicate (2 ^ 32 + 1) 65, x = 65)
      ∧ CalculateEntropy realOps 8 (List.replicate (2 ^ 32 + 1) 65)
          = -(1 / (2 ^ 32 + 1) * Real.logb 2 (1 / (2 ^ 32 + 1)))
      ∧ 0 < CalculateEntropy realOps 8 (List.replicate (2 ^ 32 + 1) 65) := by
  refine ⟨?_, fun x hx => List.eq_of_mem_replicate hx, CalculateEntropy_replicate_wrapped, ?_⟩
  · intro h
    have := congrArg List.length h
    rw [List.length_replicate] at this
    simp at this
  · rw [CalculateEntropy_replicate_wrapped]
    have hp : (0 : ℝ) < 1 / (2 ^ 32 + 1) := by positivity
    have hlt : (1 : ℝ) / (2 ^ 32 + 1) < 1 := by
      rw [div_lt_one (by positivity)]
      norm_num
    have hlog := Real.logb_neg (b := 2) (by norm_num) hp hlt
    have := mul_neg_of_pos_of_neg hp hlog
    linarith

/-- C16 on the code, at a stream longer than the 32-bit counters can count. On a 64-bit
target and the stream `0, 1, ..., 255` repeated `2^32` times (`2^40` bytes, each value
occurring `2^32` times), all 256 counters have wrapped to 0, no bucket is taken, and the
entropy computed is the product of the initial `0.0` by `-1`: 0 over the reals, not 8. -/
theorem CalculateEntropy_uniform_overflow :
    (∀ v, v < 256 → (cycles (2 ^ 32)).count v = 2 ^ 32)
      ∧ (cycles (2 ^ 32)).length = 2 ^ 40
      ∧ CalculateEntropy realOps 8 (cycles (2 ^ 32)) = 0
      ∧ CalculateEntropy realOps 8 (cycles (2 ^ 32)) ≠ 8 := by
  have hc : ∀ v, v < 256 → (cycles (2 ^ 32)).count v % 2 ^ 32 = 0 := by
    intro v hv
    rw [count_cycles _ v hv, Nat.mod_self]
  have h0 : CalculateEntropy realOps 8 (cycles (2 ^ 32)) = 0 := by
    rw [CalculateEntropy_of_wrapped realOps 8 _ hc]
    simp only [realOps, zero_mul]
  refine ⟨fun v hv => count_cycles _ v hv, ?_, h0, ?_⟩
  · rw [length_cycles]
    norm_num
  · rw [h0]
    norm_num

/-- On a 32-bit target (`sizeof(size_t) = 4`) the total wraps as well: for the stream
`0, 1, ..., 255` repeated `2^24` times (`2^32` bytes) `fileSize` is 0 while every counter is
`2^24`, so each of the 256 buckets is divided by a zero total, whatever the arithmetic. -/
theorem CalculateEntropy_uniform_zero_total {F : Type} (D : DoubleOps F) :
    (cycles (2 ^ 24)).length % 2 ^ (8 * 4) = 0
      ∧ countTable (cycles (2 ^ 24)) = List.replicate 256 (2 ^ 24)
      ∧ CalculateEntropy D 4 (cycles (2 ^ 24))
          = D.mul ((List.replicate 256 (2 ^ 24)).foldl (entropyStep D 0) D.zero) D.negOne := by
  have hlen : (cycles (2 ^ 24)).length % 2 ^ (8 * 4) = 0 := by
    rw [length_cycles]
    norm_num
  have htab : countTable (cycles (2 ^ 24)) = List.replicate 256 (2 ^ 24) := by
    unfold countTable
    rw [List.map_congr_left (fun v hv => by
      rw [count_cycles _ v (List.mem_range.1 hv)]), List.map_const', List.length_range]
    norm_num
  refine ⟨hlen, htab, ?_⟩
  unfold CalculateEntropy
  simp only
  rw [readLoop_table, htab, hlen]

end Mrrng64
